import Mathlib

/-!
# Verification of `pygwalker/services/spec.py`

A shallow embedding of the spec-resolution module of pygwalker:
source classification (`_is_json`, `_is_config_id`,
`_get_spec_json_from_diff_source`), the version-gated migration
(`_config_adapter`, `StrictVersion`), field reconciliation
(`fill_new_fields`) and the top-level resolver (`get_spec_json`).

Python/JSON values are modelled by the mutual inductive `PyJson`;
`json.loads` by a fueled recursive-descent parser `parseJson` and
`json.dumps` (default options: `ensure_ascii=True`,
separators `", "` / `": "`) by `pyDumps`.  Numbers are carried as their
literal token (`PyJson.num lit`): the claims under study never compare
numeric values, and a token that satisfies the JSON number grammar
round-trips through dump/parse exactly like Python's canonical float
repr does after one dump.  Two conservative deviations of the parser,
neither of which any claim below touches: lone UTF-16 surrogate escapes
are rejected (Python keeps them; Lean `Char` cannot represent them) and
only ASCII whitespace is skipped.

External collaborators (network fetchers `read_config_from_cloud`,
`_get_spec_from_url`, `_get_spec_from_server`'s HTTP layer, the column
sanitizer `rename_columns`, the random-id source `rand_str`, the
filesystem and the `GlobalVarManager.privacy` flag) are supplied through
an explicit environment, as the spec directs for collaborators.
-/

-- A Python value as produced by `json.loads`: the JSON universe.
-- `num` keeps the numeric literal token as scanned.
mutual
inductive PyJson where
  | null
  | bool (b : Bool)
  | num (lit : String)
  | str (s : String)
  | arr (elems : PyArr)
  | obj (entries : PyObj)
deriving DecidableEq
inductive PyArr where
  | nil
  | cons (hd : PyJson) (tl : PyArr)
deriving DecidableEq
inductive PyObj where
  | nil
  | cons (key : String) (val : PyJson) (tl : PyObj)
deriving DecidableEq
end

def PyArr.toList : PyArr → List PyJson
  | .nil => []
  | .cons x tl => x :: tl.toList

def PyArr.ofList : List PyJson → PyArr
  | [] => .nil
  | x :: xs => .cons x (PyArr.ofList xs)

def PyObj.toList : PyObj → List (String × PyJson)
  | .nil => []
  | .cons k v tl => (k, v) :: tl.toList

def PyObj.ofList : List (String × PyJson) → PyObj
  | [] => .nil
  | (k, v) :: kvs => .cons k v (PyObj.ofList kvs)

theorem arrToList_ofList (l : List PyJson) : (PyArr.ofList l).toList = l := by
  induction l with
  | nil => rfl
  | cons x xs ih => simp [PyArr.ofList, PyArr.toList, ih]

theorem objToList_ofList (l : List (String × PyJson)) : (PyObj.ofList l).toList = l := by
  induction l with
  | nil => rfl
  | cons kv kvs ih => obtain ⟨k, v⟩ := kv; simp [PyObj.ofList, PyObj.toList, ih]

theorem arrOfList_toList : ∀ (a : PyArr), PyArr.ofList a.toList = a
  | .nil => rfl
  | .cons x tl => by simp [PyArr.ofList, PyArr.toList, arrOfList_toList tl]

theorem objOfList_toList : ∀ (o : PyObj), PyObj.ofList o.toList = o
  | .nil => rfl
  | .cons k v tl => by simp [PyObj.ofList, PyObj.toList, objOfList_toList tl]

/-- First value bound to `k` in an association list (Python dicts never hold
duplicate keys, and our parser resolves duplicates on insertion). -/
def objFind (kvs : List (String × PyJson)) (k : String) : Option PyJson :=
  match kvs with
  | [] => none
  | (k', v) :: rest => if k' = k then some v else objFind rest k

/-- Python dict write `d[k] = v`: an existing key keeps its position and gets
the new value, a new key is appended.  This is both how `json.loads` resolves
duplicate keys and how the source mutates parsed documents. -/
def objUpsert (kvs : List (String × PyJson)) (k : String) (v : PyJson) :
    List (String × PyJson) :=
  match kvs with
  | [] => [(k, v)]
  | (k', v') :: rest =>
    if k' = k then (k', v) :: rest else (k', v') :: objUpsert rest k v

/-- Python truthiness of a JSON value (`bool(x)`). -/
def pyTruthy : PyJson → Bool
  | .null => false
  | .bool b => b
  | .num lit => ¬(lit = "0" ∨ lit = "0.0" ∨ lit = "-0" ∨ lit = "-0.0")
  | .str s => s ≠ ""
  | .arr a => a ≠ .nil
  | .obj o => o ≠ .nil

/-- Error kinds raised by the module (Python exception classes).
`jsonDecodeError` is `json.decoder.JSONDecodeError` (a `ValueError`
subclass), kept separate because `get_spec_json` catches only the
decode error of its own top-level `json.loads`. -/
inductive PyError where
  | valueError (msg : String)
  | jsonDecodeError
  | privacyError (msg : String)
  | invalidConfigId (msg : String)
  | keyError (key : String)
  | typeError
  | attributeError
deriving DecidableEq

/-! ## `json.loads`: a fueled recursive-descent parser -/

/-- JSON whitespace (Python `json` skips exactly these four). -/
def jsWs (c : Char) : Bool := c = ' ' || c = '\t' || c = '\n' || c = '\r'

def jsSkip : List Char → List Char
  | [] => []
  | c :: r => if jsWs c then jsSkip r else c :: r

def isDig (c : Char) : Bool := '0' ≤ c && c ≤ '9'

/-- Longest digit run at the head of the input. -/
def jsDigits : List Char → List Char × List Char
  | [] => ([], [])
  | c :: r => if isDig c then ((jsDigits r).1.cons c, (jsDigits r).2) else ([], c :: r)

/-- Integer part of Python's `NUMBER_RE`: `0|[1-9]\d*`. -/
def numIntPart : List Char → Option (List Char × List Char)
  | [] => none
  | c :: r =>
    if c = '0' then some (['0'], r)
    else if isDig c then some ((jsDigits r).1.cons c, (jsDigits r).2)
    else none

/-- Fraction part `(\.\d+)?`; yields `([], input)` when absent. -/
def numFracPart : List Char → List Char × List Char
  | [] => ([], [])
  | c :: r =>
    if c = '.' then
      if (jsDigits r).1 = [] then ([], c :: r)
      else ('.' :: (jsDigits r).1, (jsDigits r).2)
    else ([], c :: r)

/-- Exponent part `([eE][-+]?\d+)?`; yields `([], input)` when absent. -/
def numExpPart : List Char → List Char × List Char
  | [] => ([], [])
  | e :: r =>
    if e = 'e' ∨ e = 'E' then
      match r with
      | [] => ([], [e])
      | s :: r1 =>
        if s = '+' ∨ s = '-' then
          if (jsDigits r1).1 = [] then ([], e :: r)
          else (e :: s :: (jsDigits r1).1, (jsDigits r1).2)
        else
          if (jsDigits r).1 = [] then ([], e :: r)
          else (e :: (jsDigits r).1, (jsDigits r).2)
    else ([], e :: r)

/-- Maximal-munch scan of one JSON number literal, Python's
`(-?(?:0|[1-9]\d*))(\.\d+)?([eE][-+]?\d+)?`: token characters and rest. -/
def parseNumAtom (l : List Char) : Option (List Char × List Char) :=
  let sl : List Char × List Char :=
    if l.head? = some '-' then (['-'], l.tail) else ([], l)
  match numIntPart sl.2 with
  | none => none
  | some (ip, r1) =>
    let fp := numFracPart r1
    let ep := numExpPart fp.2
    some (sl.1 ++ ip ++ fp.1 ++ ep.1, ep.2)

def hexNib (c : Char) : Option Nat :=
  if '0' ≤ c ∧ c ≤ '9' then some (c.toNat - 48)
  else if 'a' ≤ c ∧ c ≤ 'f' then some (c.toNat - 87)
  else if 'A' ≤ c ∧ c ≤ 'F' then some (c.toNat - 55)
  else none

def jsHex4 : List Char → Option (Nat × List Char)
  | a :: b :: c :: d :: r =>
    match hexNib a, hexNib b, hexNib c, hexNib d with
    | some x, some y, some z, some w => some (((x * 16 + y) * 16 + z) * 16 + w, r)
    | _, _, _, _ => none
  | _ => none

def escShort (e : Char) : Option Char :=
  if e = '"' then some '"'
  else if e = '\\' then some '\\'
  else if e = '/' then some '/'
  else if e = 'b' then some (Char.ofNat 8)
  else if e = 'f' then some (Char.ofNat 12)
  else if e = 'n' then some '\n'
  else if e = 'r' then some '\r'
  else if e = 't' then some '\t'
  else none

/-- String body after the opening quote.  Matches Python `json` in strict
mode (raw control characters rejected), except that lone UTF-16 surrogate
escapes are rejected rather than kept (Lean `Char` has no surrogates);
surrogate pairs are combined as Python does. -/
def parseStrBody : Nat → List Char → List Char → Option (String × List Char)
  | 0, _, _ => none
  | f+1, acc, l =>
    match l with
    | [] => none
    | c :: rest =>
      if c = '"' then some (String.mk acc, rest)
      else if c = '\\' then
        match rest with
        | [] => none
        | e :: r =>
          if e = 'u' then
            match jsHex4 r with
            | none => none
            | some (n, r1) =>
              if 0xD800 ≤ n ∧ n < 0xDC00 then
                match r1 with
                | '\\' :: 'u' :: r2 =>
                  (match jsHex4 r2 with
                   | none => none
                   | some (m, r3) =>
                     if 0xDC00 ≤ m ∧ m < 0xE000 then
                       parseStrBody f
                         (acc ++ [Char.ofNat (0x10000 + (n - 0xD800) * 0x400 + (m - 0xDC00))]) r3
                     else none)
                | _ => none
              else if 0xDC00 ≤ n ∧ n < 0xE000 then none
              else parseStrBody f (acc ++ [Char.ofNat n]) r1
          else
            match escShort e with
            | some c2 => parseStrBody f (acc ++ [c2]) r
            | none => none
      else if c.toNat < 0x20 then none
      else parseStrBody f (acc ++ [c]) rest

mutual
/-- One JSON value (fueled); mirrors Python's `_json` scanner including the
non-standard constants `NaN`, `Infinity`, `-Infinity`. -/
def parseValue : Nat → List Char → Option (PyJson × List Char)
  | 0, _ => none
  | f+1, l =>
    match jsSkip l with
    | [] => none
    | c :: r =>
      if c = '"' then (parseStrBody (r.length + 1) [] r).map (fun p => (.str p.1, p.2))
      else if c = '{' then
        match jsSkip r with
        | [] => none
        | c2 :: r2 => if c2 = '}' then some (.obj .nil, r2) else parseMembers f [] (c2 :: r2)
      else if c = '[' then
        match jsSkip r with
        | [] => none
        | c2 :: r2 => if c2 = ']' then some (.arr .nil, r2) else parseElems f [] (c2 :: r2)
      else if c = 'n' then
        match r with
        | 'u' :: 'l' :: 'l' :: r2 => some (.null, r2)
        | _ => none
      else if c = 't' then
        match r with
        | 'r' :: 'u' :: 'e' :: r2 => some (.bool true, r2)
        | _ => none
      else if c = 'f' then
        match r with
        | 'a' :: 'l' :: 's' :: 'e' :: r2 => some (.bool false, r2)
        | _ => none
      else if c = 'N' then
        match r with
        | 'a' :: 'N' :: r2 => some (.num "NaN", r2)
        | _ => none
      else if c = 'I' then
        match r with
        | 'n' :: 'f' :: 'i' :: 'n' :: 'i' :: 't' :: 'y' :: r2 => some (.num "Infinity", r2)
        | _ => none
      else if c = '-' ∧ r.take 8 = ['I', 'n', 'f', 'i', 'n', 'i', 't', 'y'] then
        some (.num "-Infinity", r.drop 8)
      else (parseNumAtom (c :: r)).map (fun p => (.num (String.mk p.1), p.2))

/-- One-or-more comma-separated array elements (the empty array is handled in
`parseValue`). -/
def parseElems : Nat → List PyJson → List Char → Option (PyJson × List Char)
  | 0, _, _ => none
  | f+1, acc, l =>
    match parseValue f l with
    | none => none
    | some (v, r) =>
      match jsSkip r with
      | [] => none
      | c :: r2 =>
        if c = ',' then parseElems f (acc ++ [v]) r2
        else if c = ']' then some (.arr (PyArr.ofList (acc ++ [v])), r2)
        else none

/-- One-or-more object members; duplicate keys resolve as Python dicts do
(first position, last value) via `objUpsert`. -/
def parseMembers : Nat → List (String × PyJson) → List Char → Option (PyJson × List Char)
  | 0, _, _ => none
  | f+1, acc, l =>
    match jsSkip l with
    | [] => none
    | c :: r =>
      if c = '"' then
        match parseStrBody (r.length + 1) [] r with
        | none => none
        | some (k, r1) =>
          match jsSkip r1 with
          | [] => none
          | c2 :: r2 =>
            if c2 = ':' then
              match parseValue f r2 with
              | none => none
              | some (v, r3) =>
                match jsSkip r3 with
                | [] => none
                | c3 :: r4 =>
                  if c3 = ',' then parseMembers f (objUpsert acc k v) r4
                  else if c3 = '}' then
                    some (.obj (PyObj.ofList (objUpsert acc k v)), r4)
                  else none
            else none
      else none
end

/-- `json.loads`: parse one document, then only whitespace may remain. -/
def parseJson (s : String) : Option PyJson :=
  match parseValue (s.data.length + 1) s.data with
  | some (v, r) => if jsSkip r = [] then some v else none
  | none => none

/-- `_is_json` (spec.py line 14): `json.loads` succeeds. -/
def _is_json (s : String) : Bool := (parseJson s).isSome

example : parseJson "[1, 2]" =
    some (.arr (.cons (.num "1") (.cons (.num "2") .nil))) := by decide
example : parseJson " \x7b\"a\": [true, null], \"a\": \"x\" \x7d " =
    some (.obj (.cons "a" (.str "x") .nil)) := by decide
example : _is_json "0x11" = false := by decide
example : _is_json "11111111111111111111111111111111" = true := by decide
example : _is_json "./nope.json" = false := by decide
example : parseJson "\"a\\u00e9\\ud83d\\ude00b\"" = some (.str "aé😀b") := by decide

/-! ## `json.dumps` with default options -/

/-- Lowercase hex digit, as Python's `\uXXXX` escapes emit. -/
def hexDigitChar (n : Nat) : Char :=
  if n < 10 then Char.ofNat (48 + n) else Char.ofNat (87 + n)

def hexQuad (n : Nat) : List Char :=
  [hexDigitChar (n / 4096 % 16), hexDigitChar (n / 256 % 16),
   hexDigitChar (n / 16 % 16), hexDigitChar (n % 16)]

def uEscape (n : Nat) : List Char := '\\' :: 'u' :: hexQuad n

/-- One string character as `json.dumps` (default `ensure_ascii=True`) writes
it: short escapes, printable ASCII verbatim, everything else `\uXXXX`
(astral characters as a surrogate pair). -/
def escapeChar (c : Char) : List Char :=
  if c = '"' then ['\\', '"']
  else if c = '\\' then ['\\', '\\']
  else if c = '\n' then ['\\', 'n']
  else if c = '\t' then ['\\', 't']
  else if c = '\r' then ['\\', 'r']
  else if c = Char.ofNat 8 then ['\\', 'b']
  else if c = Char.ofNat 12 then ['\\', 'f']
  else if 0x20 ≤ c.toNat ∧ c.toNat ≤ 0x7E then [c]
  else if c.toNat < 0x10000 then uEscape c.toNat
  else uEscape (0xD800 + (c.toNat - 0x10000) / 0x400) ++
       uEscape (0xDC00 + (c.toNat - 0x10000) % 0x400)

def escString (s : String) : List Char := s.data.flatMap escapeChar

mutual
/-- `json.dumps` (default separators `", "` and `": "`), to characters. -/
def dumpV : PyJson → List Char
  | .bool false => ['f', 'a', 'l', 's', 'e']
  | .bool true => ['t', 'r', 'u', 'e']
  | .null => ['n', 'u', 'l', 'l']
  | .num lit => lit.data
  | .str s => '"' :: (escString s ++ ['"'])
  | .arr xs => '[' :: (dumpA xs ++ [']'])
  | .obj kvs => '{' :: (dumpO kvs ++ ['}'])
def dumpA : PyArr → List Char
  | .nil => []
  | .cons x .nil => dumpV x
  | .cons x (.cons y tl) => dumpV x ++ ',' :: ' ' :: dumpA (.cons y tl)
def dumpO : PyObj → List Char
  | .nil => []
  | .cons k v .nil => '"' :: (escString k ++ '"' :: ':' :: ' ' :: dumpV v)
  | .cons k v (.cons k2 v2 tl) =>
    '"' :: (escString k ++ '"' :: ':' :: ' ' :: dumpV v) ++
      ',' :: ' ' :: dumpO (.cons k2 v2 tl)
end

def pyDumps (v : PyJson) : String := String.mk (dumpV v)

/-! ## Well-formed values: what `json.loads` can produce -/

/-- A number token the dump/parse pair round-trips: one of the three constant
tokens, or a complete match of the JSON number grammar. -/
def numTokOk (lit : String) : Bool :=
  lit = "NaN" || lit = "Infinity" || lit = "-Infinity" ||
    decide (parseNumAtom lit.data = some (lit.data, []))

def PyObj.hasKey : PyObj → String → Bool
  | .nil, _ => false
  | .cons k _ tl, k0 => k = k0 || tl.hasKey k0

def noDupKeys : PyObj → Bool
  | .nil => true
  | .cons k _ tl => !tl.hasKey k && noDupKeys tl

mutual
/-- Well-formedness: number tokens round-trip and object keys are distinct.
Every value `json.loads` yields satisfies this (dicts cannot hold duplicate
keys), and it is what the dump/parse round trip needs. -/
def wfV : PyJson → Bool
  | .null => true
  | .bool _ => true
  | .num lit => numTokOk lit
  | .str _ => true
  | .arr xs => wfA xs
  | .obj kvs => noDupKeys kvs && wfO kvs
def wfA : PyArr → Bool
  | .nil => true
  | .cons x tl => wfV x && wfA tl
def wfO : PyObj → Bool
  | .nil => true
  | .cons _ v tl => wfV v && wfO tl
end

example : pyDumps (.arr (.cons (.num "1") (.cons (.str "a") .nil))) = "[1, \"a\"]" := by decide
example : pyDumps (.obj (.cons "k" (.bool true) (.cons "l" .null .nil))) =
    "\x7b\"k\": true, \"l\": null\x7d" := by decide
example : pyDumps (.str "é") = "\"\\u00e9\"" := by decide
example : pyDumps (.str "😀") = "\"\\ud83d\\ude00\"" := by decide
example : wfV (.obj (.cons "a" (.num "1.5e-7") .nil)) = true := by decide
example : wfV (.obj (.cons "a" .null (.cons "a" .null .nil))) = false := by decide

/-! ## Round trip, stage 1: characters and strings -/

theorem String.mk_data (s : String) : String.mk s.data = s := rfl

theorem hexNib_hexDigitChar (n : Nat) (h : n < 16) : hexNib (hexDigitChar n) = some n := by
  interval_cases n <;> decide

theorem jsHex4_hexQuad (n : Nat) (h : n < 0x10000) (rest : List Char) :
    jsHex4 (hexQuad n ++ rest) = some (n, rest) := by
  have h1 : n / 4096 % 16 < 16 := Nat.mod_lt _ (by omega)
  have h2 : n / 256 % 16 < 16 := Nat.mod_lt _ (by omega)
  have h3 : n / 16 % 16 < 16 := Nat.mod_lt _ (by omega)
  have h4 : n % 16 < 16 := Nat.mod_lt _ (by omega)
  have e : ((n / 4096 % 16 * 16 + n / 256 % 16) * 16 + n / 16 % 16) * 16 + n % 16 = n := by
    omega
  simp [hexQuad, jsHex4, hexNib_hexDigitChar _ h1, hexNib_hexDigitChar _ h2,
    hexNib_hexDigitChar _ h3, hexNib_hexDigitChar _ h4, e]

theorem char_not_surrogate (c : Char) : c.toNat < 0xD800 ∨ 0xE000 ≤ c.toNat := by
  rcases c with ⟨v, hv⟩
  rcases hv with h | h
  · left; exact h
  · right; exact h.1

theorem char_lt_11 (c : Char) : c.toNat < 0x110000 := by
  rcases c with ⟨v, hv⟩
  rcases hv with h | h
  · show v.toNat < _
    omega
  · exact h.2

/-- A `\uXXXX` escape below the surrogate range parses to `Char.ofNat n`. -/
theorem parseStrBody_uEsc (f : Nat) (acc : List Char) (n : Nat) (rest : List Char)
    (hn : n < 0x10000) (h1 : ¬(0xD800 ≤ n ∧ n < 0xDC00))
    (h2 : ¬(0xDC00 ≤ n ∧ n < 0xE000)) :
    parseStrBody (f + 1) acc ('\\' :: 'u' :: (hexQuad n ++ rest)) =
      parseStrBody f (acc ++ [Char.ofNat n]) rest := by
  simp [parseStrBody, jsHex4_hexQuad _ hn, h1, h2]

/-- A surrogate-pair escape parses to the combined astral character. -/
theorem parseStrBody_surPair (f : Nat) (acc : List Char) (n m : Nat) (rest : List Char)
    (hn : 0xD800 ≤ n ∧ n < 0xDC00) (hm : 0xDC00 ≤ m ∧ m < 0xE000) :
    parseStrBody (f + 1) acc
        ('\\' :: 'u' :: (hexQuad n ++ ('\\' :: 'u' :: (hexQuad m ++ rest)))) =
      parseStrBody f (acc ++ [Char.ofNat (0x10000 + (n - 0xD800) * 0x400 + (m - 0xDC00))])
        rest := by
  simp [parseStrBody, jsHex4_hexQuad _ (show n < 0x10000 by omega),
    jsHex4_hexQuad _ (show m < 0x10000 by omega), hn, hm]

/-- Parsing one dumped character consumes one step and pushes that character. -/
theorem parseStrBody_escChar (c : Char) (acc tail : List Char) (f : Nat) :
    parseStrBody (f + 1) acc (escapeChar c ++ tail) = parseStrBody f (acc ++ [c]) tail := by
  by_cases h1 : c = '"'
  · subst h1; simp [escapeChar, parseStrBody, escShort]
  by_cases h2 : c = '\\'
  · subst h2; simp [escapeChar, parseStrBody, escShort]
  by_cases h3 : c = '\n'
  · subst h3; simp [escapeChar, parseStrBody, escShort]
  by_cases h4 : c = '\t'
  · subst h4; simp [escapeChar, parseStrBody, escShort]
  by_cases h5 : c = '\r'
  · subst h5; simp [escapeChar, parseStrBody, escShort]
  by_cases h6 : c = Char.ofNat 8
  · subst h6; simp [escapeChar, parseStrBody, escShort]
  by_cases h7 : c = Char.ofNat 12
  · subst h7; simp [escapeChar, parseStrBody, escShort]
  by_cases h8 : 0x20 ≤ c.toNat ∧ c.toNat ≤ 0x7E
  · have hlt : ¬(c.toNat < 0x20) := by omega
    simp only [escapeChar, if_neg h1, if_neg h2, if_neg h3, if_neg h4, if_neg h5,
      if_neg h6, if_neg h7, if_pos h8, List.cons_append, List.nil_append]
    simp [parseStrBody, h1, h2, hlt]
  by_cases h9 : c.toNat < 0x10000
  · -- BMP escape \uXXXX
    have hsur := char_not_surrogate c
    have hn1 : ¬(0xD800 ≤ c.toNat ∧ c.toNat < 0xDC00) := by omega
    have hn2 : ¬(0xDC00 ≤ c.toNat ∧ c.toNat < 0xE000) := by omega
    simp only [escapeChar, if_neg h1, if_neg h2, if_neg h3, if_neg h4, if_neg h5,
      if_neg h6, if_neg h7, if_neg h8, if_pos h9, uEscape, List.cons_append]
    rw [parseStrBody_uEsc f acc c.toNat tail h9 hn1 hn2, Char.ofNat_toNat]
  · -- astral: surrogate pair
    have h11 := char_lt_11 c
    obtain ⟨k, hk⟩ : ∃ k, c.toNat = 0x10000 + k := ⟨c.toNat - 0x10000, by omega⟩
    have hklt : k < 0x100000 := by omega
    have hd : k / 0x400 < 0x400 := by omega
    have hm2 : k % 0x400 < 0x400 := Nat.mod_lt _ (by omega)
    have hin : 0xD800 ≤ 0xD800 + k / 0x400 ∧ 0xD800 + k / 0x400 < 0xDC00 := by omega
    have hin2 : 0xDC00 ≤ 0xDC00 + k % 0x400 ∧ 0xDC00 + k % 0x400 < 0xE000 := by omega
    have hc : Char.ofNat (0x10000 + (0xD800 + k / 0x400 - 0xD800) * 0x400 +
        (0xDC00 + k % 0x400 - 0xDC00)) = c := by
      have e2 : 0x10000 + (0xD800 + k / 0x400 - 0xD800) * 0x400 +
          (0xDC00 + k % 0x400 - 0xDC00) = c.toNat := by omega
      rw [e2, Char.ofNat_toNat]
    have hsub : c.toNat - 0x10000 = k := by omega
    simp only [escapeChar, if_neg h1, if_neg h2, if_neg h3, if_neg h4, if_neg h5,
      if_neg h6, if_neg h7, if_neg h8, if_neg h9, uEscape, hsub, List.cons_append,
      List.append_assoc]
    rw [parseStrBody_surPair f acc _ _ tail hin hin2, hc]

/-- Parsing a dumped string body stops exactly at the closing quote. -/
theorem parseStrBody_escString : ∀ (cs acc rest : List Char) (f : Nat), cs.length < f →
    parseStrBody f acc (cs.flatMap escapeChar ++ '"' :: rest) =
      some (String.mk (acc ++ cs), rest)
  | [], acc, rest, f, hf => by
    match f, hf with
    | f + 1, _ => simp [parseStrBody]
  | c :: cs, acc, rest, f, hf => by
    match f, hf with
    | f + 1, hf =>
      rw [List.flatMap_cons, List.append_assoc, parseStrBody_escChar c acc _ f,
        parseStrBody_escString cs (acc ++ [c]) rest f (by simp at hf; omega)]
      simp

theorem escapeChar_length_pos (c : Char) : 1 ≤ (escapeChar c).length := by
  rw [escapeChar]
  repeat' split
  all_goals simp [uEscape, hexQuad]

theorem escString_length_ge (s : String) : s.data.length ≤ (escString s).length := by
  rw [escString]
  induction s.data with
  | nil => simp
  | cons c cs ih =>
    rw [List.flatMap_cons]
    simp only [List.length_append, List.length_cons]
    have := escapeChar_length_pos c
    omega

/-! ## Round trip, stage 2: number tokens -/

def noDigHead : List Char → Bool
  | [] => true
  | c :: _ => !isDig c

/-- A remainder that cannot extend a dumped number token; every JSON
delimiter (`,`, `]`, `\x7d`) and end of input qualifies. -/
def numStop : List Char → Bool
  | [] => true
  | c :: _ => !(isDig c || c = '.' || c = 'e' || c = 'E')

theorem numStop_noDig : ∀ {l : List Char}, numStop l = true → noDigHead l = true
  | [], _ => rfl
  | c :: r, h => by simp [numStop] at h; simp [noDigHead, h.1]

theorem jsDigits_sound : ∀ (l : List Char),
    l = (jsDigits l).1 ++ (jsDigits l).2 ∧ (∀ c ∈ (jsDigits l).1, isDig c = true) ∧
      noDigHead (jsDigits l).2 = true
  | [] => by simp [jsDigits, noDigHead]
  | c :: l => by
    rcases jsDigits_sound l with ⟨h1, h2, h3⟩
    by_cases hc : isDig c = true
    · simp only [jsDigits, hc, if_true]
      refine ⟨?_, ?_, h3⟩
      · simpa using h1
      · intro d hd
        rcases List.mem_cons.mp hd with rfl | hd2
        · exact hc
        · exact h2 d hd2
    · simp only [jsDigits, hc, if_false, Bool.false_eq_true]
      refine ⟨by simp, by simp, ?_⟩
      simp only [noDigHead]
      simp at hc
      simp [hc]

theorem jsDigits_of_all : ∀ (ds rest : List Char), (∀ c ∈ ds, isDig c = true) →
    noDigHead rest = true → jsDigits (ds ++ rest) = (ds, rest)
  | [], rest, _, hr => by
    cases rest with
    | nil => simp [jsDigits]
    | cons c r =>
      simp [noDigHead] at hr
      simp [jsDigits, hr]
  | d :: ds, rest, hd, hr => by
    have h1 : isDig d = true := hd d (by simp)
    have h2 := jsDigits_of_all ds rest (fun c hc => hd c (by simp [hc])) hr
    simp [jsDigits, h1, h2]

/-- Shape of a scanned integer part. -/
def IpShape (ip : List Char) : Prop :=
  ip = ['0'] ∨ ∃ c ds, ip = c :: ds ∧ isDig c = true ∧ c ≠ '0' ∧ ∀ d ∈ ds, isDig d = true

/-- Shape of a scanned fraction part. -/
def FsShape (fs : List Char) : Prop :=
  fs = [] ∨ ∃ ds, fs = '.' :: ds ∧ ds ≠ [] ∧ ∀ d ∈ ds, isDig d = true

/-- Shape of a scanned exponent part. -/
def EsShape (es : List Char) : Prop :=
  es = [] ∨ ∃ e sg ds, es = e :: (sg ++ ds) ∧ (e = 'e' ∨ e = 'E') ∧
    (sg = [] ∨ sg = ['+'] ∨ sg = ['-']) ∧ ds ≠ [] ∧ ∀ d ∈ ds, isDig d = true

theorem numIntPart_sound (l ip r : List Char) (h : numIntPart l = some (ip, r)) :
    l = ip ++ r ∧ IpShape ip := by
  cases l with
  | nil => simp [numIntPart] at h
  | cons c r0 =>
    by_cases hc : c = '0'
    · subst hc
      simp [numIntPart] at h
      obtain ⟨rfl, rfl⟩ := h
      exact ⟨rfl, Or.inl rfl⟩
    · by_cases hd : isDig c = true
      · simp [numIntPart, hc, hd] at h
        obtain ⟨rfl, rfl⟩ := h
        rcases jsDigits_sound r0 with ⟨h1, h2, _⟩
        refine ⟨by simpa using h1, Or.inr ⟨c, (jsDigits r0).1, rfl, hd, hc, h2⟩⟩
      · simp [numIntPart, hc, hd] at h

theorem numFracPart_sound (l : List Char) :
    l = (numFracPart l).1 ++ (numFracPart l).2 ∧ FsShape (numFracPart l).1 := by
  cases l with
  | nil => simp [numFracPart, FsShape]
  | cons c r0 =>
    by_cases hc : c = '.'
    · subst hc
      by_cases hds : (jsDigits r0).1 = []
      · simp [numFracPart, hds, FsShape]
      · rcases jsDigits_sound r0 with ⟨h1, h2, _⟩
        simp only [numFracPart, if_pos rfl, if_neg hds]
        refine ⟨by simpa using h1, Or.inr ⟨(jsDigits r0).1, rfl, hds, h2⟩⟩
    · simp [numFracPart, hc, FsShape]

theorem numExpPart_sound (l : List Char) :
    l = (numExpPart l).1 ++ (numExpPart l).2 ∧ EsShape (numExpPart l).1 := by
  cases l with
  | nil => simp [numExpPart, EsShape]
  | cons e r0 =>
    by_cases he : e = 'e' ∨ e = 'E'
    · cases r0 with
      | nil => simp [numExpPart, he, EsShape]
      | cons s r1 =>
        by_cases hs : s = '+' ∨ s = '-'
        · by_cases hds : (jsDigits r1).1 = []
          · simp [numExpPart, he, hs, hds, EsShape]
          · rcases jsDigits_sound r1 with ⟨h1, h2, _⟩
            simp only [numExpPart, if_pos he, if_pos hs, if_neg hds]
            constructor
            · simpa using h1
            · refine Or.inr ⟨e, [s], (jsDigits r1).1, by simp, he, ?_, hds, h2⟩
              rcases hs with rfl | rfl
              · simp
              · simp
        · by_cases hds : (jsDigits (s :: r1)).1 = []
          · simp [numExpPart, he, hs, hds, EsShape]
          · rcases jsDigits_sound (s :: r1) with ⟨h1, h2, _⟩
            simp only [numExpPart, if_pos he, if_neg hs, if_neg hds]
            constructor
            · simpa using h1
            · exact Or.inr ⟨e, [], (jsDigits (s :: r1)).1, by simp, he, by simp, hds, h2⟩
    · simp [numExpPart, he, EsShape]

def noDotHead : List Char → Bool
  | [] => true
  | c :: _ => c ≠ '.'

def noExpHead : List Char → Bool
  | [] => true
  | c :: _ => ¬(c = 'e' ∨ c = 'E')

theorem numStop_noDot : ∀ {l : List Char}, numStop l = true → noDotHead l = true
  | [], _ => rfl
  | c :: r, h => by
    simp [numStop] at h
    obtain ⟨⟨⟨_, hdot⟩, _⟩, _⟩ := h
    simp [noDotHead, hdot]

theorem numStop_noExp : ∀ {l : List Char}, numStop l = true → noExpHead l = true
  | [], _ => rfl
  | c :: r, h => by
    simp [numStop] at h
    obtain ⟨⟨⟨_, _⟩, he⟩, hE⟩ := h
    simp [noExpHead, he, hE]

theorem numIntPart_recon (ip rest : List Char) (hip : IpShape ip)
    (hr : noDigHead rest = true) : numIntPart (ip ++ rest) = some (ip, rest) := by
  rcases hip with rfl | ⟨c, ds, rfl, hdig, hne, hall⟩
  · simp [numIntPart]
  · rw [List.cons_append]
    simp only [numIntPart, if_neg hne, hdig, if_true]
    rw [jsDigits_of_all ds rest hall hr]

theorem numFracPart_recon (fs rest : List Char) (hfs : FsShape fs)
    (hdig : noDigHead rest = true) (hdot : noDotHead rest = true) :
    numFracPart (fs ++ rest) = (fs, rest) := by
  rcases hfs with rfl | ⟨ds, rfl, hne, hall⟩
  · cases rest with
    | nil => simp [numFracPart]
    | cons c r =>
      simp only [noDotHead] at hdot
      simp at hdot
      simp [numFracPart, hdot]
  · rw [List.cons_append]
    simp only [numFracPart, if_pos rfl]
    rw [jsDigits_of_all ds rest hall hdig]
    simp [hne]

theorem numExpPart_recon (es rest : List Char) (hes : EsShape es)
    (hdig : noDigHead rest = true) (hexp : noExpHead rest = true) :
    numExpPart (es ++ rest) = (es, rest) := by
  rcases hes with rfl | ⟨e, sg, ds, rfl, he, hsg, hne, hall⟩
  · cases rest with
    | nil => simp [numExpPart]
    | cons c r =>
      simp only [noExpHead] at hexp
      simp at hexp
      simp [numExpPart, hexp]
  · obtain ⟨d, ds2, rfl⟩ : ∃ d ds2, ds = d :: ds2 := by
      cases ds with
      | nil => exact absurd rfl hne
      | cons d ds2 => exact ⟨d, ds2, rfl⟩
    have hd : isDig d = true := hall d (by simp)
    have hnsign : ¬(d = '+' ∨ d = '-') := by
      rintro (rfl | rfl) <;> exact absurd hd (by decide)
    rcases hsg with rfl | rfl | rfl
    · have e1 : (e :: ([] ++ (d :: ds2))) ++ rest = e :: ((d :: ds2) ++ rest) := by simp
      rw [e1]
      simp only [numExpPart, if_pos he, List.cons_append]
      have h2 := jsDigits_of_all (d :: ds2) rest hall hdig
      rw [List.cons_append] at h2
      rw [h2]
      simp [hnsign]
    · have e1 : (e :: (['+'] ++ (d :: ds2))) ++ rest = e :: '+' :: ((d :: ds2) ++ rest) := by
        simp
      rw [e1]
      simp only [numExpPart, if_pos he, List.cons_append]
      have h2 := jsDigits_of_all (d :: ds2) rest hall hdig
      rw [List.cons_append] at h2
      rw [h2]
      simp
    · have e1 : (e :: (['-'] ++ (d :: ds2))) ++ rest = e :: '-' :: ((d :: ds2) ++ rest) := by
        simp
      rw [e1]
      simp only [numExpPart, if_pos he, List.cons_append]
      have h2 := jsDigits_of_all (d :: ds2) rest hall hdig
      rw [List.cons_append] at h2
      rw [h2]
      simp

/-- Decomposition of a scanned number token into its regex groups. -/
theorem parseNumAtom_sound (l t r : List Char) (h : parseNumAtom l = some (t, r)) :
    ∃ sg ip fs es, t = sg ++ ip ++ fs ++ es ∧ l = t ++ r ∧
      (sg = [] ∨ sg = ['-']) ∧ IpShape ip ∧ FsShape fs ∧ EsShape es := by
  by_cases hm : l.head? = some '-'
  · simp only [parseNumAtom, if_pos hm] at h
    match hip : numIntPart l.tail with
    | none => rw [hip] at h; simp at h
    | some (ip, r1) =>
      rw [hip] at h
      simp only [Option.some.injEq, Prod.mk.injEq] at h
      obtain ⟨rfl, rfl⟩ := h
      obtain ⟨hsplit1, hshape1⟩ := numIntPart_sound l.tail ip r1 hip
      obtain ⟨hsplit2, hshape2⟩ := numFracPart_sound r1
      obtain ⟨hsplit3, hshape3⟩ := numExpPart_sound (numFracPart r1).2
      refine ⟨['-'], ip, (numFracPart r1).1, (numExpPart (numFracPart r1).2).1,
        rfl, ?_, Or.inr rfl, hshape1, hshape2, hshape3⟩
      obtain ⟨c, l2, rfl⟩ : ∃ c l2, l = c :: l2 := by
        cases l with
        | nil => simp at hm
        | cons c l2 => exact ⟨c, l2, rfl⟩
      simp only [List.head?] at hm
      have : c = '-' := by simpa using hm
      subst this
      simp only [List.tail] at hsplit1
      rw [hsplit3] at hsplit2
      rw [hsplit2] at hsplit1
      simp [hsplit1]
  · simp only [parseNumAtom, if_neg hm] at h
    match hip : numIntPart l with
    | none => rw [hip] at h; simp at h
    | some (ip, r1) =>
      rw [hip] at h
      simp only [Option.some.injEq, Prod.mk.injEq] at h
      obtain ⟨rfl, rfl⟩ := h
      obtain ⟨hsplit1, hshape1⟩ := numIntPart_sound l ip r1 hip
      obtain ⟨hsplit2, hshape2⟩ := numFracPart_sound r1
      obtain ⟨hsplit3, hshape3⟩ := numExpPart_sound (numFracPart r1).2
      refine ⟨[], ip, (numFracPart r1).1, (numExpPart (numFracPart r1).2).1,
        rfl, ?_, Or.inl rfl, hshape1, hshape2, hshape3⟩
      rw [hsplit3] at hsplit2
      conv_lhs => rw [hsplit1, hsplit2]
      simp

theorem isDig_ne_minus {c : Char} (h : isDig c = true) : c ≠ '-' := by
  rintro rfl; exact absurd h (by decide)

theorem isDig_ne_dot {c : Char} (h : isDig c = true) : c ≠ '.' := by
  rintro rfl; exact absurd h (by decide)

/-- Rebuild: a token in regex-group shape scans to itself before any
non-extending remainder. -/
theorem parseNumAtom_recon (sg ip fs es rest : List Char)
    (hsg : sg = [] ∨ sg = ['-']) (hip : IpShape ip) (hfs : FsShape fs)
    (hes : EsShape es) (hrest : numStop rest = true) :
    parseNumAtom (sg ++ ip ++ fs ++ es ++ rest) = some (sg ++ ip ++ fs ++ es, rest) := by
  -- head facts of the three tails
  have hesDig : noDigHead (es ++ rest) = true := by
    rcases hes with rfl | ⟨e, sg2, ds, rfl, he, _, _, _⟩
    · simpa using numStop_noDig hrest
    · rcases he with rfl | rfl <;> simp [noDigHead, isDig]
  have hesDot : noDotHead (es ++ rest) = true := by
    rcases hes with rfl | ⟨e, sg2, ds, rfl, he, _, _, _⟩
    · simpa using numStop_noDot hrest
    · rcases he with rfl | rfl <;> simp [noDotHead]
  have hfsDig : noDigHead (fs ++ es ++ rest) = true := by
    rcases hfs with rfl | ⟨ds, rfl, _, _⟩
    · simpa using hesDig
    · simp [noDigHead, isDig]
  have hfr := numFracPart_recon fs (es ++ rest) hfs hesDig hesDot
  have her := numExpPart_recon es rest hes (numStop_noDig hrest) (numStop_noExp hrest)
  have hir := numIntPart_recon ip (fs ++ es ++ rest) hip hfsDig
  -- the sign
  rcases hsg with rfl | rfl
  · have hhead : ¬((ip ++ fs ++ es ++ rest).head? = some '-') := by
      rcases hip with rfl | ⟨c, ds, rfl, hdig, _, _⟩
      · simp
      · simp [isDig_ne_minus hdig]
    simp only [List.nil_append, parseNumAtom, if_neg hhead]
    have hir2 : numIntPart (ip ++ fs ++ es ++ rest) = some (ip, fs ++ es ++ rest) := by
      simpa [List.append_assoc] using hir
    rw [hir2]
    simp only []
    have hfr2 : numFracPart (fs ++ (es ++ rest)) = (fs, es ++ rest) := by
      simpa [List.append_assoc] using hfr
    simp only [List.append_assoc] at hfr2 ⊢
    rw [hfr2, her]
  · have hhead : (('-' :: []) ++ ip ++ fs ++ es ++ rest).head? = some '-' := by simp
    simp only [parseNumAtom, if_pos hhead]
    have htail : (('-' :: []) ++ ip ++ fs ++ es ++ rest).tail = ip ++ fs ++ es ++ rest := by
      simp
    rw [htail]
    have hir2 : numIntPart (ip ++ fs ++ es ++ rest) = some (ip, fs ++ es ++ rest) := by
      simpa [List.append_assoc] using hir
    rw [hir2]
    simp only []
    have hfr2 : numFracPart (fs ++ (es ++ rest)) = (fs, es ++ rest) := by
      simpa [List.append_assoc] using hfr
    simp only [List.append_assoc] at hfr2 ⊢
    rw [hfr2, her]

/-- A completely scanned token scans to itself before any stopper. -/
theorem parseNumAtom_ext (t rest : List Char) (hself : parseNumAtom t = some (t, []))
    (hrest : numStop rest = true) : parseNumAtom (t ++ rest) = some (t, rest) := by
  obtain ⟨sg, ip, fs, es, rfl, _, hsg, hip, hfs, hes⟩ :=
    parseNumAtom_sound t t [] hself
  have := parseNumAtom_recon sg ip fs es rest hsg hip hfs hes hrest
  simpa [List.append_assoc] using this

/-- What a successful scan consumed is itself a complete token. -/
theorem parseNumAtom_self (l t r : List Char) (h : parseNumAtom l = some (t, r)) :
    parseNumAtom t = some (t, []) := by
  obtain ⟨sg, ip, fs, es, rfl, _, hsg, hip, hfs, hes⟩ := parseNumAtom_sound l t r h
  have := parseNumAtom_recon sg ip fs es [] hsg hip hfs hes rfl
  simpa using this

/-- A successful scan splits the input. -/
theorem parseNumAtom_split (l t r : List Char) (h : parseNumAtom l = some (t, r)) :
    l = t ++ r :=
  (parseNumAtom_sound l t r h).choose_spec.choose_spec.choose_spec.choose_spec.2.1

/-! ## Round trip, stage 3: values -/

theorem jsSkip_cons_noWs {c : Char} (r : List Char) (h : jsWs c = false) :
    jsSkip (c :: r) = c :: r := by
  simp [jsSkip, h]

theorem parseValue_ws (f : Nat) (l : List Char) :
    parseValue f (' ' :: l) = parseValue f l := by
  cases f with
  | zero => rfl
  | succ f =>
    have : jsSkip (' ' :: l) = jsSkip l := by simp [jsSkip, jsWs]
    simp only [parseValue, this]

theorem parseElems_ws (f : Nat) (acc : List PyJson) (l : List Char) :
    parseElems f acc (' ' :: l) = parseElems f acc l := by
  cases f with
  | zero => rfl
  | succ f => simp only [parseElems, parseValue_ws]

theorem parseMembers_ws (f : Nat) (acc : List (String × PyJson)) (l : List Char) :
    parseMembers f acc (' ' :: l) = parseMembers f acc l := by
  cases f with
  | zero => rfl
  | succ f =>
    have : jsSkip (' ' :: l) = jsSkip l := by simp [jsSkip, jsWs]
    simp only [parseMembers, this]

theorem isDig_not_special {c : Char} (h : isDig c = true) :
    jsWs c = false ∧ c ≠ '"' ∧ c ≠ '{' ∧ c ≠ '[' ∧ c ≠ 'n' ∧ c ≠ 't' ∧ c ≠ 'f' ∧
      c ≠ 'N' ∧ c ≠ 'I' ∧ c ≠ '-' ∧ c ≠ ']' ∧ c ≠ '}' ∧ c ≠ ',' := by
  refine ⟨?_, ?_, ?_, ?_, ?_, ?_, ?_, ?_, ?_, ?_, ?_, ?_, ?_⟩
  · simp only [jsWs, Bool.or_eq_false_iff, decide_eq_false_iff_not]
    refine ⟨⟨⟨?_, ?_⟩, ?_⟩, ?_⟩ <;> (rintro rfl; exact absurd h (by decide))
  all_goals (rintro rfl; exact absurd h (by decide))

/-- Head of a well-formed number token: `N`, `I`, a sign, or a digit. -/
theorem numTok_head (lit : String) (h : numTokOk lit = true) :
    ∃ c t, lit.data = c :: t ∧ jsWs c = false ∧ c ≠ ']' ∧ c ≠ '}' ∧ c ≠ ',' := by
  simp only [numTokOk, Bool.or_eq_true, decide_eq_true_eq] at h
  rcases h with ((rfl | rfl) | rfl) | h
  · exact ⟨'N', _, rfl, by decide, by decide, by decide, by decide⟩
  · exact ⟨'I', _, rfl, by decide, by decide, by decide, by decide⟩
  · exact ⟨'-', _, rfl, by decide, by decide, by decide, by decide⟩
  · obtain ⟨sg, ip, fs, es, hsplit, _, hsg, hip, _, _⟩ :=
      parseNumAtom_sound lit.data lit.data [] h
    rcases hsg with rfl | rfl
    · rcases hip with rfl | ⟨c, ds, rfl, hdig, _, _⟩
      · refine ⟨'0', _, by simpa using hsplit, by decide, by decide, by decide, by decide⟩
      · obtain ⟨hws, _, _, _, _, _, _, _, _, _, hbr, hbc, hcm⟩ := isDig_not_special hdig
        exact ⟨c, _, by simpa using hsplit, hws, hbr, hbc, hcm⟩
    · exact ⟨'-', _, by simpa using hsplit, by decide, by decide, by decide, by decide⟩

/-- Parsing a dumped number token before a stopper yields exactly that token. -/
theorem parseValue_numTok (f : Nat) (lit : String) (rest : List Char)
    (h : numTokOk lit = true) (hrest : numStop rest = true) :
    parseValue (f + 1) (lit.data ++ rest) = some (.num lit, rest) := by
  simp only [numTokOk, Bool.or_eq_true, decide_eq_true_eq] at h
  rcases h with ((rfl | rfl) | rfl) | h
  · simp [parseValue, jsSkip, jsWs]
  · simp [parseValue, jsSkip, jsWs]
  · simp [parseValue, jsSkip, jsWs, List.take, List.drop]
  · obtain ⟨sg, ip, fs, es, hsplit, _, hsg, hip, hfs, hes⟩ :=
      parseNumAtom_sound lit.data lit.data [] h
    have hext := parseNumAtom_ext lit.data rest h hrest
    have hmk : String.mk lit.data = lit := rfl
    -- identify the head character of the token
    have hip_head : ∃ d t2, ip = d :: t2 ∧ isDig d = true := by
      rcases hip with rfl | ⟨c, ds, rfl, hdig, _, _⟩
      · exact ⟨'0', [], rfl, by decide⟩
      · exact ⟨c, ds, rfl, hdig⟩
    obtain ⟨d, t2, rfl, hdig⟩ := hip_head
    obtain ⟨hws, hq, hbo, hbk, hn, ht, hf2, hN, hI, hm, _, _, _⟩ := isDig_not_special hdig
    rcases hsg with rfl | rfl
    · -- digit-headed token
      have harg : lit.data ++ rest = d :: (t2 ++ fs ++ es ++ rest) := by
        rw [hsplit]; simp
      rw [harg]
      simp only [parseValue]
      rw [jsSkip_cons_noWs _ hws]
      simp only [if_neg hq, if_neg hbo, if_neg hbk, if_neg hn, if_neg ht, if_neg hf2,
        if_neg hN, if_neg hI]
      have hcond : ¬(d = '-' ∧ (t2 ++ fs ++ es ++ rest).take 8 =
          ['I', 'n', 'f', 'i', 'n', 'i', 't', 'y']) := by
        rintro ⟨rfl, _⟩
        exact hm rfl
      rw [if_neg hcond]
      have : d :: (t2 ++ fs ++ es ++ rest) = lit.data ++ rest := harg.symm
      rw [this, hext]
      simp [hmk]
    · -- '-'-headed token
      have harg : lit.data ++ rest = '-' :: (d :: t2 ++ fs ++ es ++ rest) := by
        rw [hsplit]; simp
      rw [harg]
      simp only [parseValue]
      rw [jsSkip_cons_noWs _ (by decide)]
      simp only [if_neg (by decide : ¬('-' : Char) = '"'),
        if_neg (by decide : ¬('-' : Char) = '{'), if_neg (by decide : ¬('-' : Char) = '['),
        if_neg (by decide : ¬('-' : Char) = 'n'), if_neg (by decide : ¬('-' : Char) = 't'),
        if_neg (by decide : ¬('-' : Char) = 'f'), if_neg (by decide : ¬('-' : Char) = 'N'),
        if_neg (by decide : ¬('-' : Char) = 'I')]
      have htake : List.take 8 (d :: t2 ++ fs ++ es ++ rest) ≠
          ['I', 'n', 'f', 'i', 'n', 'i', 't', 'y'] := by
        intro hcontra
        rw [show ((d :: t2) ++ fs ++ es ++ rest) = d :: (t2 ++ fs ++ es ++ rest) by
          simp] at hcontra
        rw [List.take_succ_cons] at hcontra
        exact hI (List.cons.inj hcontra).1
      rw [if_neg (by simp; exact fun hd => absurd hd hI)]
      have : ('-' :: (d :: t2 ++ fs ++ es ++ rest)) = lit.data ++ rest := harg.symm
      rw [this, hext]
      simp [hmk]

/-- Members parsed left to right with `objUpsert`. -/
def upsertFold (acc : List (String × PyJson)) (l : List (String × PyJson)) :
    List (String × PyJson) :=
  List.foldl (fun a kv => objUpsert a kv.1 kv.2) acc l

theorem objUpsert_append (acc : List (String × PyJson)) (k : String) (v : PyJson)
    (h : ∀ p ∈ acc, p.1 ≠ k) : objUpsert acc k v = acc ++ [(k, v)] := by
  induction acc with
  | nil => rfl
  | cons p acc ih =>
    have hp : p.1 ≠ k := h p (by simp)
    simp only [objUpsert, if_neg hp, List.cons_append, List.cons.injEq, true_and]
    exact ih (fun q hq => h q (by simp [hq]))

theorem upsertFold_of_fresh : ∀ (l acc : List (String × PyJson)),
    (∀ kv ∈ l, ∀ p ∈ acc, p.1 ≠ kv.1) →
    List.Pairwise (fun a b => a.1 ≠ b.1) l →
    upsertFold acc l = acc ++ l
  | [], acc, _, _ => by simp [upsertFold]
  | (k, v) :: l, acc, hfresh, hpw => by
    have h1 : objUpsert acc k v = acc ++ [(k, v)] :=
      objUpsert_append acc k v (fun p hp => hfresh (k, v) (by simp) p hp)
    have hpw2 := (List.pairwise_cons.mp hpw).2
    have hhd := (List.pairwise_cons.mp hpw).1
    have h2 : upsertFold (acc ++ [(k, v)]) l = (acc ++ [(k, v)]) ++ l := by
      refine upsertFold_of_fresh l (acc ++ [(k, v)]) ?_ hpw2
      intro kv hkv p hp
      rcases List.mem_append.mp hp with hp1 | hp2
      · exact hfresh kv (by simp [hkv]) p hp1
      · have : p = (k, v) := by simpa using hp2
        subst this
        exact hhd kv hkv
    calc upsertFold acc ((k, v) :: l) = upsertFold (objUpsert acc k v) l := rfl
    _ = upsertFold (acc ++ [(k, v)]) l := by rw [h1]
    _ = (acc ++ [(k, v)]) ++ l := h2
    _ = acc ++ (k, v) :: l := by simp

theorem hasKey_toList : ∀ (o : PyObj) (k : String), PyObj.hasKey o k = false →
    ∀ p ∈ o.toList, p.1 ≠ k
  | .nil, k, _ => by simp [PyObj.toList]
  | .cons k2 v2 tl, k, h => by
    simp only [PyObj.hasKey, Bool.or_eq_false_iff, decide_eq_false_iff_not] at h
    intro p hp
    rcases List.mem_cons.mp hp with rfl | hp2
    · exact h.1
    · exact hasKey_toList tl k h.2 p hp2

theorem noDupKeys_pairwise : ∀ (o : PyObj), noDupKeys o = true →
    List.Pairwise (fun a b => a.1 ≠ b.1) o.toList
  | .nil, _ => by simp [PyObj.toList]
  | .cons k v tl, h => by
    simp only [noDupKeys, Bool.and_eq_true, Bool.not_eq_true'] at h
    refine List.pairwise_cons.mpr ⟨?_, noDupKeys_pairwise tl h.2⟩
    intro p hp
    exact fun he => hasKey_toList tl k h.1 p hp (he ▸ rfl)

/-- A dumped value starts with a character that is neither whitespace nor a
closing delimiter. -/
theorem dumpV_head (v : PyJson) (hwf : wfV v = true) :
    ∃ c t, dumpV v = c :: t ∧ jsWs c = false ∧ c ≠ ']' ∧ c ≠ '}' := by
  cases v with
  | null => exact ⟨'n', _, rfl, by decide, by decide, by decide⟩
  | bool b =>
    cases b with
    | false => exact ⟨'f', _, rfl, by decide, by decide, by decide⟩
    | true => exact ⟨'t', _, rfl, by decide, by decide, by decide⟩
  | num lit =>
    obtain ⟨c, t, hdata, hws, hbr, hbc, _⟩ := numTok_head lit (by simpa [wfV] using hwf)
    exact ⟨c, t, by simp [dumpV, hdata], hws, hbr, hbc⟩
  | str s => exact ⟨'"', _, rfl, by decide, by decide, by decide⟩
  | arr xs => exact ⟨'[', _, rfl, by decide, by decide, by decide⟩
  | obj kvs => exact ⟨'{', _, rfl, by decide, by decide, by decide⟩

theorem parseStrBody_dumped (s : String) (rest : List Char) (f : Nat)
    (hf : s.data.length < f) :
    parseStrBody f [] (escString s ++ '"' :: rest) = some (s, rest) := by
  have := parseStrBody_escString s.data [] rest f hf
  simpa [escString, String.mk_data] using this

mutual
theorem rtV : ∀ (v : PyJson) (f : Nat) (rest : List Char), wfV v = true →
    (dumpV v).length < f → numStop rest = true →
    parseValue f (dumpV v ++ rest) = some (v, rest)
  | v, 0, rest, _, hf, _ => absurd hf (by omega)
  | .null, f+1, rest, _, _, _ => by simp [dumpV, parseValue, jsSkip, jsWs]
  | .bool true, f+1, rest, _, _, _ => by simp [dumpV, parseValue, jsSkip, jsWs]
  | .bool false, f+1, rest, _, _, _ => by simp [dumpV, parseValue, jsSkip, jsWs]
  | .num lit, f+1, rest, hwf, _, hrest => by
    have h := parseValue_numTok f lit rest (by simpa [wfV] using hwf) hrest
    simpa [dumpV] using h
  | .str s, f+1, rest, _, _, _ => by
    have harg : dumpV (.str s) ++ rest = '"' :: (escString s ++ '"' :: rest) := by
      simp [dumpV]
    rw [harg]
    simp only [parseValue]
    rw [jsSkip_cons_noWs _ (by decide)]
    simp only [if_pos rfl]
    have hlen : s.data.length < (escString s ++ '"' :: rest).length + 1 := by
      have := escString_length_ge s
      simp only [List.length_append, List.length_cons]
      omega
    rw [parseStrBody_dumped s rest _ hlen]
    rfl
  | .arr .nil, f+1, rest, _, _, _ => by
    have harg : dumpV (.arr .nil) ++ rest = '[' :: ']' :: rest := by
      simp [dumpV, dumpA]
    rw [harg]
    simp [parseValue, jsSkip, jsWs]
  | .arr (.cons x tl), f+1, rest, hwf, hf, _ => by
    have hwx : wfV x = true ∧ wfA tl = true := by
      simpa [wfV, wfA, Bool.and_eq_true] using hwf
    obtain ⟨c0, t0, hd0, hws0, hbr0, _⟩ := dumpV_head x hwx.1
    have hdA : ∃ ta, dumpA (.cons x tl) ++ ']' :: rest = c0 :: ta := by
      cases tl with
      | nil => exact ⟨t0 ++ ']' :: rest, by simp [dumpA, hd0]⟩
      | cons y tl2 =>
        exact ⟨t0 ++ ',' :: ' ' :: dumpA (.cons y tl2) ++ ']' :: rest,
          by simp [dumpA, hd0]⟩
    obtain ⟨ta, hta⟩ := hdA
    have harg : dumpV (.arr (.cons x tl)) ++ rest =
        '[' :: (dumpA (.cons x tl) ++ ']' :: rest) := by
      simp [dumpV]
    rw [harg]
    simp only [parseValue]
    rw [jsSkip_cons_noWs _ (by decide)]
    simp only [Char.reduceEq, reduceIte]
    rw [hta, jsSkip_cons_noWs _ hws0]
    simp only [if_neg hbr0]
    rw [← hta]
    have hfa : (dumpA (.cons x tl)).length + 1 < f := by
      have : (dumpV (.arr (.cons x tl))).length = (dumpA (.cons x tl)).length + 2 := by
        simp [dumpV]
      omega
    rw [rtA x tl f [] rest hwx.1 hwx.2 hfa]
    simp [PyArr.ofList, arrOfList_toList]
  | .obj .nil, f+1, rest, _, _, _ => by
    have harg : dumpV (.obj .nil) ++ rest = '{' :: '}' :: rest := by
      simp [dumpV, dumpO]
    rw [harg]
    simp [parseValue, jsSkip, jsWs]
  | .obj (.cons k v tl), f+1, rest, hwf, hf, _ => by
    have hwx : noDupKeys (.cons k v tl) = true ∧ wfV v = true ∧ wfO tl = true := by
      simpa [wfV, wfO, Bool.and_eq_true, and_assoc] using hwf
    have harg : dumpV (.obj (.cons k v tl)) ++ rest =
        '{' :: (dumpO (.cons k v tl) ++ '}' :: rest) := by
      simp [dumpV]
    rw [harg]
    simp only [parseValue]
    rw [jsSkip_cons_noWs _ (by decide)]
    simp only [Char.reduceEq, reduceIte]
    have hdO : ∃ t1, dumpO (.cons k v tl) ++ '}' :: rest = '"' :: t1 := by
      cases tl with
      | nil =>
        exact ⟨escString k ++ '"' :: ':' :: ' ' :: (dumpV v ++ '}' :: rest),
          by simp [dumpO]⟩
      | cons k2 v2 tl2 =>
        exact ⟨escString k ++ '"' :: ':' :: ' ' :: (dumpV v ++
          ',' :: ' ' :: (dumpO (.cons k2 v2 tl2) ++ '}' :: rest)), by simp [dumpO]⟩
    obtain ⟨t1, ht1⟩ := hdO
    rw [ht1, jsSkip_cons_noWs _ (by decide)]
    simp only [Char.reduceEq, reduceIte]
    rw [← ht1]
    have hfo : (dumpO (.cons k v tl)).length + 1 < f := by
      have : (dumpV (.obj (.cons k v tl))).length = (dumpO (.cons k v tl)).length + 2 := by
        simp [dumpV]
      omega
    rw [rtO k v tl f [] rest hwx.2.1 hwx.2.2 hfo]
    have hfold : upsertFold [] ((k, v) :: tl.toList) = (k, v) :: tl.toList := by
      have := upsertFold_of_fresh ((k, v) :: tl.toList) [] (by simp)
        (noDupKeys_pairwise (.cons k v tl) hwx.1)
      simpa [PyObj.toList] using this
    rw [hfold]
    simp [PyObj.ofList, objOfList_toList]
termination_by v _ _ _ _ _ => sizeOf v

theorem rtA : ∀ (x : PyJson) (tl : PyArr) (f : Nat) (acc : List PyJson)
    (rest : List Char), wfV x = true → wfA tl = true →
    (dumpA (.cons x tl)).length + 1 < f →
    parseElems f acc (dumpA (.cons x tl) ++ ']' :: rest) =
      some (.arr (PyArr.ofList (acc ++ x :: tl.toList)), rest)
  | x, tl, 0, acc, rest, _, _, hf => absurd hf (by omega)
  | x, .nil, f+1, acc, rest, hwx, _, hf => by
    have harg : dumpA (.cons x .nil) ++ ']' :: rest = dumpV x ++ ']' :: rest := by
      simp [dumpA]
    rw [harg]
    simp only [parseElems]
    rw [rtV x f (']' :: rest) hwx (by simp [dumpA] at hf; omega) rfl]
    simp [jsSkip, jsWs, PyArr.toList]
  | x, .cons y tl2, f+1, acc, rest, hwx, hwtl, hf => by
    have hwy : wfV y = true ∧ wfA tl2 = true := by
      simpa [wfA, Bool.and_eq_true] using hwtl
    have harg : dumpA (.cons x (.cons y tl2)) ++ ']' :: rest =
        dumpV x ++ ',' :: ' ' :: (dumpA (.cons y tl2) ++ ']' :: rest) := by
      simp [dumpA]
    rw [harg]
    simp only [parseElems]
    have hlen : (dumpA (.cons x (.cons y tl2))).length =
        (dumpV x).length + 2 + (dumpA (.cons y tl2)).length := by
      simp [dumpA]
      omega
    rw [rtV x f (',' :: ' ' :: (dumpA (.cons y tl2) ++ ']' :: rest)) hwx
      (by omega) rfl]
    have hrec := rtA y tl2 f (acc ++ [x]) rest hwy.1 hwy.2 (by omega)
    simp [jsSkip, jsWs, parseElems_ws, hrec, PyArr.toList]
termination_by x tl _ _ _ _ _ _ => sizeOf x + sizeOf tl + 1

theorem rtO : ∀ (k : String) (v : PyJson) (tl : PyObj) (f : Nat)
    (acc : List (String × PyJson)) (rest : List Char), wfV v = true → wfO tl = true →
    (dumpO (.cons k v tl)).length + 1 < f →
    parseMembers f acc (dumpO (.cons k v tl) ++ '}' :: rest) =
      some (.obj (PyObj.ofList (upsertFold acc ((k, v) :: tl.toList))), rest)
  | k, v, tl, 0, acc, rest, _, _, hf => absurd hf (by omega)
  | k, v, .nil, f+1, acc, rest, hwv, _, hf => by
    have harg : dumpO (.cons k v .nil) ++ '}' :: rest =
        '"' :: (escString k ++ '"' :: (':' :: ' ' :: (dumpV v ++ '}' :: rest))) := by
      simp [dumpO]
    rw [harg]
    simp only [parseMembers]
    rw [jsSkip_cons_noWs _ (by decide)]
    simp only [if_pos rfl]
    have hlen1 : (dumpO (.cons k v .nil)).length =
        (escString k).length + 4 + (dumpV v).length := by
      simp [dumpO]
      omega
    have hklen : k.data.length <
        (escString k ++ '"' :: (':' :: ' ' :: (dumpV v ++ '}' :: rest))).length + 1 := by
      have := escString_length_ge k
      simp only [List.length_append, List.length_cons]
      omega
    rw [parseStrBody_dumped k _ _ hklen]
    have hskip : jsSkip (':' :: ' ' :: (dumpV v ++ '}' :: rest)) =
        ':' :: ' ' :: (dumpV v ++ '}' :: rest) := jsSkip_cons_noWs _ (by decide)
    simp only [hskip, Char.reduceEq, reduceIte]
    rw [parseValue_ws]
    rw [rtV v f ('}' :: rest) hwv (by omega) rfl]
    simp [jsSkip, jsWs, upsertFold, PyObj.toList]
  | k, v, .cons k2 v2 tl2, f+1, acc, rest, hwv, hwtl, hf => by
    have hwy : wfV v2 = true ∧ wfO tl2 = true := by
      simpa [wfO, Bool.and_eq_true] using hwtl
    have harg : dumpO (.cons k v (.cons k2 v2 tl2)) ++ '}' :: rest =
        '"' :: (escString k ++ '"' :: (':' :: ' ' :: (dumpV v ++
          ',' :: ' ' :: (dumpO (.cons k2 v2 tl2) ++ '}' :: rest)))) := by
      simp [dumpO]
    rw [harg]
    simp only [parseMembers]
    rw [jsSkip_cons_noWs _ (by decide)]
    simp only [if_pos rfl]
    have hlen1 : (dumpO (.cons k v (.cons k2 v2 tl2))).length =
        (escString k).length + 6 + (dumpV v).length +
          (dumpO (.cons k2 v2 tl2)).length := by
      simp [dumpO]
      omega
    have hklen : k.data.length < (escString k ++ '"' :: (':' :: ' ' :: (dumpV v ++
        ',' :: ' ' :: (dumpO (.cons k2 v2 tl2) ++ '}' :: rest)))).length + 1 := by
      have := escString_length_ge k
      simp only [List.length_append, List.length_cons]
      omega
    rw [parseStrBody_dumped k _ _ hklen]
    have hskip : jsSkip (':' :: ' ' :: (dumpV v ++ ',' :: ' ' ::
        (dumpO (.cons k2 v2 tl2) ++ '}' :: rest))) = ':' :: ' ' :: (dumpV v ++
        ',' :: ' ' :: (dumpO (.cons k2 v2 tl2) ++ '}' :: rest)) :=
      jsSkip_cons_noWs _ (by decide)
    simp only [hskip, Char.reduceEq, reduceIte]
    rw [parseValue_ws]
    rw [rtV v f (',' :: ' ' :: (dumpO (.cons k2 v2 tl2) ++ '}' :: rest)) hwv
      (by omega) rfl]
    have hrec := rtO k2 v2 tl2 f (objUpsert acc k v) rest hwy.1 hwy.2 (by omega)
    simp [jsSkip, jsWs, parseMembers_ws, hrec, upsertFold, PyObj.toList]
termination_by _ v tl _ _ _ _ _ _ => sizeOf v + sizeOf tl + 1
end

/-- The dump/parse round trip: `json.loads(json.dumps(v)) == v` for every
well-formed value. -/
theorem parseJson_dumps (v : PyJson) (hwf : wfV v = true) :
    parseJson (pyDumps v) = some v := by
  have h := rtV v ((dumpV v).length + 1) [] hwf (by omega) rfl
  simp only [List.append_nil] at h
  simp [parseJson, pyDumps, h, jsSkip]

/-! ## The parser yields only well-formed values -/

theorem wfA_ofList : ∀ (l : List PyJson), (∀ x ∈ l, wfV x = true) →
    wfA (PyArr.ofList l) = true
  | [], _ => rfl
  | x :: l, h => by
    simp only [PyArr.ofList, wfA, Bool.and_eq_true]
    exact ⟨h x (by simp), wfA_ofList l (fun y hy => h y (by simp [hy]))⟩

theorem wfO_ofList : ∀ (l : List (String × PyJson)), (∀ kv ∈ l, wfV kv.2 = true) →
    wfO (PyObj.ofList l) = true
  | [], _ => rfl
  | (k, v) :: l, h => by
    simp only [PyObj.ofList, wfO, Bool.and_eq_true]
    exact ⟨h (k, v) (by simp), wfO_ofList l (fun kv hkv => h kv (by simp [hkv]))⟩

theorem hasKey_ofList_false : ∀ (l : List (String × PyJson)) (k : String),
    (∀ p ∈ l, p.1 ≠ k) → PyObj.hasKey (PyObj.ofList l) k = false
  | [], _, _ => rfl
  | (k2, v2) :: l, k, h => by
    simp only [PyObj.ofList, PyObj.hasKey, Bool.or_eq_false_iff,
      decide_eq_false_iff_not]
    exact ⟨h (k2, v2) (by simp), hasKey_ofList_false l k
      (fun p hp => h p (by simp [hp]))⟩

theorem noDupKeys_ofList : ∀ (l : List (String × PyJson)),
    List.Pairwise (fun a b => a.1 ≠ b.1) l → noDupKeys (PyObj.ofList l) = true
  | [], _ => rfl
  | (k, v) :: l, h => by
    obtain ⟨hhd, htl⟩ := List.pairwise_cons.mp h
    simp only [PyObj.ofList, noDupKeys, Bool.and_eq_true, Bool.not_eq_true']
    exact ⟨hasKey_ofList_false l k (fun p hp he => hhd p hp he.symm),
      noDupKeys_ofList l htl⟩

theorem objUpsert_mem (acc : List (String × PyJson)) (k : String) (v : PyJson) :
    ∀ kv ∈ objUpsert acc k v, kv ∈ acc ∨ kv = (k, v) := by
  induction acc with
  | nil => simp [objUpsert]
  | cons p acc ih =>
    by_cases hp : p.1 = k
    · simp only [objUpsert, if_pos hp]
      intro kv hkv
      rcases List.mem_cons.mp hkv with rfl | hkv2
      · right
        have : p.1 = k := hp
        obtain ⟨p1, p2⟩ := p
        simp at this
        simp [this]
      · left; exact List.mem_cons_of_mem _ hkv2
    · simp only [objUpsert, if_neg hp]
      intro kv hkv
      rcases List.mem_cons.mp hkv with rfl | hkv2
      · left; exact List.mem_cons_self _ _
      · rcases ih kv hkv2 with h1 | h2
        · left; exact List.mem_cons_of_mem _ h1
        · right; exact h2

theorem objUpsert_keys_sub (acc : List (String × PyJson)) (k : String) (v : PyJson) :
    ∀ kv ∈ objUpsert acc k v, kv.1 = k ∨ kv.1 ∈ acc.map Prod.fst := by
  intro kv hkv
  rcases objUpsert_mem acc k v kv hkv with h1 | rfl
  · right; exact List.mem_map_of_mem Prod.fst h1
  · left; rfl

theorem objUpsert_pairwise (acc : List (String × PyJson)) (k : String) (v : PyJson)
    (h : List.Pairwise (fun a b => a.1 ≠ b.1) acc) :
    List.Pairwise (fun a b => a.1 ≠ b.1) (objUpsert acc k v) := by
  induction acc with
  | nil => simp [objUpsert]
  | cons p acc ih =>
    obtain ⟨hhd, htl⟩ := List.pairwise_cons.mp h
    by_cases hp : p.1 = k
    · simp only [objUpsert, if_pos hp]
      refine List.pairwise_cons.mpr ⟨?_, htl⟩
      intro b hb
      exact hhd b hb
    · simp only [objUpsert, if_neg hp]
      refine List.pairwise_cons.mpr ⟨?_, ih htl⟩
      intro b hb
      rcases objUpsert_mem acc k v b hb with h1 | rfl
      · exact hhd b h1
      · exact hp

mutual
theorem parseValue_wf : ∀ (f : Nat) (l : List Char) (v : PyJson) (r : List Char),
    parseValue f l = some (v, r) → wfV v = true
  | 0, l, v, r, h => by simp [parseValue] at h
  | f+1, l, v, r, h => by
    simp only [parseValue] at h
    repeat' split at h
    all_goals first
      | (simp at h; done)
      | exact parseMembers_wf f [] _ v r (by simp) (by simp) h
      | exact parseElems_wf f [] _ v r (by simp) h
      | (simp only [Option.map_eq_some'] at h
         obtain ⟨p, hp1, hp2⟩ := h
         obtain ⟨rfl, rfl⟩ : _ = v ∧ p.2 = r :=
           ⟨congrArg Prod.fst hp2, congrArg Prod.snd hp2⟩
         first
           | rfl
           | (have hself := parseNumAtom_self _ p.1 p.2 (by rw [Prod.mk.eta]; exact hp1)
              simp only [wfV, numTokOk, Bool.or_eq_true, decide_eq_true_eq]
              right
              exact hself))
      | (simp only [Option.some.injEq, Prod.mk.injEq] at h
         obtain ⟨rfl, rfl⟩ := h
         first | rfl | decide)

theorem parseElems_wf : ∀ (f : Nat) (acc : List PyJson) (l : List Char) (v : PyJson)
    (r : List Char), (∀ x ∈ acc, wfV x = true) → parseElems f acc l = some (v, r) →
    wfV v = true
  | 0, acc, l, v, r, _, h => by simp [parseElems] at h
  | f+1, acc, l, v, r, hacc, h => by
    simp only [parseElems] at h
    repeat' split at h
    all_goals first
      | (simp at h; done)
      | (refine parseElems_wf f _ _ v r ?_ h
         intro x hx
         rcases List.mem_append.mp hx with h1 | h2
         · exact hacc x h1
         · simp at h2
           subst h2
           exact parseValue_wf _ _ _ _ (by assumption))
      | (simp only [Option.some.injEq, Prod.mk.injEq] at h
         obtain ⟨rfl, rfl⟩ := h
         simp only [wfV]
         refine wfA_ofList _ ?_
         intro x hx
         rcases List.mem_append.mp hx with h1 | h2
         · exact hacc x h1
         · simp at h2
           subst h2
           exact parseValue_wf _ _ _ _ (by assumption))

theorem parseMembers_wf : ∀ (f : Nat) (acc : List (String × PyJson)) (l : List Char)
    (v : PyJson) (r : List Char), (∀ kv ∈ acc, wfV kv.2 = true) →
    List.Pairwise (fun a b => a.1 ≠ b.1) acc → parseMembers f acc l = some (v, r) →
    wfV v = true
  | 0, acc, l, v, r, _, _, h => by simp [parseMembers] at h
  | f+1, acc, l, v, r, hacc, hpw, h => by
    simp only [parseMembers] at h
    repeat' split at h
    all_goals first
      | (simp at h; done)
      | (refine parseMembers_wf f _ _ v r ?_ ?_ h
         · intro kv hkv
           rcases objUpsert_mem _ _ _ kv hkv with h1 | rfl
           · exact hacc kv h1
           · exact parseValue_wf _ _ _ _ (by assumption)
         · exact objUpsert_pairwise _ _ _ hpw)
      | (simp only [Option.some.injEq, Prod.mk.injEq] at h
         obtain ⟨rfl, rfl⟩ := h
         simp only [wfV, Bool.and_eq_true]
         constructor
         · exact noDupKeys_ofList _ (objUpsert_pairwise _ _ _ hpw)
         · refine wfO_ofList _ ?_
           intro kv hkv
           rcases objUpsert_mem _ _ _ kv hkv with h1 | rfl
           · exact hacc kv h1
           · exact parseValue_wf _ _ _ _ (by assumption))
end

theorem parseJson_wf (s : String) (v : PyJson) (h : parseJson s = some v) :
    wfV v = true := by
  simp only [parseJson] at h
  split at h
  · rename_i w r hp
    split at h
    · obtain rfl : w = v := by simpa using h
      exact parseValue_wf _ _ _ _ hp
    · exact absurd h (by simp)
  · exact absurd h (by simp)

/-! ## Python runtime pieces used by spec.py -/

/-- Python `s.replace(old, new)` worker for a nonempty pattern: all
non-overlapping occurrences, scanned left to right. -/
def pyReplaceAux : Nat → List Char → List Char → List Char → List Char
  | 0, _, _, s => s
  | _+1, _, _, [] => []
  | f+1, old, new, c :: rest =>
    if old.isPrefixOf (c :: rest) then
      new ++ pyReplaceAux f old new ((c :: rest).drop old.length)
    else c :: pyReplaceAux f old new rest

/-- Python `s.replace(old, new)`; the empty pattern inserts `new` around
every character, as Python does. -/
def pyReplace (s old new : String) : String :=
  match old.data with
  | [] => String.mk (new.data ++ s.data.flatMap (fun c => c :: new.data))
  | _ => String.mk (pyReplaceAux s.data.length old.data new.data s.data)

example : pyReplace "banana" "an" "o" = "booa" := by decide
example : pyReplace "abc" "" "x" = "xaxbxcx" := by decide
example : pyReplace "aaa" "aa" "b" = "ba" := by decide

/-- `posixpath.basename`: everything after the last slash. -/
def pyBasename (p : String) : String :=
  String.mk ((p.data.reverse.takeWhile (fun c => c ≠ '/')).reverse)

example : pyBasename "./nope.json" = "nope.json" := by decide
example : pyBasename "abc" = "abc" := by decide
example : pyBasename "a/b/" = "" := by decide

def isHexDig (c : Char) : Bool :=
  isDig c || ('a' ≤ c && c ≤ 'f') || ('A' ≤ c && c ≤ 'F')

/-- ASCII whitespace stripped by Python `int()` (`Py_ISSPACE`). -/
def pyWsp (c : Char) : Bool :=
  c = ' ' || c = '\t' || c = '\n' || c = '\r' || c = Char.ofNat 11 || c = Char.ofNat 12

def pyStrip (l : List Char) : List Char :=
  ((l.dropWhile pyWsp).reverse.dropWhile pyWsp).reverse

/-- A run of hex digits with single underscores strictly between digits. -/
def hexDigitsUnd : List Char → Bool
  | [] => false
  | c :: rest =>
    if isHexDig c then
      match rest with
      | [] => true
      | c2 :: rest2 => if c2 = '_' then hexDigitsUnd rest2 else hexDigitsUnd (c2 :: rest2)
    else false

/-- Acceptance of CPython `int(s, 16)`: optional surrounding whitespace, an
optional sign, an optional `0x`/`0X` prefix (an underscore may follow the
prefix), then hex digits with single underscores between digits.  Restricted
to ASCII (Python additionally accepts unicode digits and whitespace). -/
def pyInt16Valid (s : String) : Bool :=
  let l0 := pyStrip s.data
  let l1 := if l0.head? = some '+' ∨ l0.head? = some '-' then l0.tail else l0
  let l2 :=
    match l1 with
    | c0 :: c1 :: r =>
      if c0 = '0' ∧ (c1 = 'x' ∨ c1 = 'X') then
        (if r.head? = some '_' then r.tail else r)
      else l1
    | _ => l1
  hexDigitsUnd l2

example : pyInt16Valid "ff" = true := by decide
example : pyInt16Valid "0xff" = true := by decide
example : pyInt16Valid " +0X_f_f " = true := by decide
example : pyInt16Valid "f_f" = true := by decide
example : pyInt16Valid "f__f" = false := by decide
example : pyInt16Valid "_ff" = false := by decide
example : pyInt16Valid "ff_" = false := by decide
example : pyInt16Valid "0x" = false := by decide
example : pyInt16Valid "" = false := by decide
example : pyInt16Valid "fg" = false := by decide

/-- A parsed `distutils.version.StrictVersion`. -/
structure SVer where
  major : Nat
  minor : Nat
  patch : Nat
  pre : Option (Char × Nat)
deriving DecidableEq

def digitsToNat (ds : List Char) : Nat :=
  ds.foldl (fun a c => a * 10 + (c.toNat - 48)) 0

/-- Prerelease tail of the version regex: `([ab](\d+))?$`. -/
def parsePreRel : List Char → Option (Option (Char × Nat))
  | [] => some none
  | c :: r =>
    if c = 'a' ∨ c = 'b' then
      let p := jsDigits r
      if p.1 = [] ∨ p.2 ≠ [] then none else some (some (c, digitsToNat p.1))
    else none

/-- `StrictVersion` parsing: anchored regex
`(\d+) \. (\d+) (\. (\d+))? ([ab](\d+))?` with a missing patch read as 0;
like `re`, the trailing `$` also matches just before one final newline. -/
def parseSVer (s : String) : Option SVer :=
  let l0 := if s.data.getLast? = some (Char.ofNat 10) then s.data.dropLast
    else s.data
  let p1 := jsDigits l0
  if p1.1 = [] then none
  else
    match p1.2 with
    | '.' :: r2 =>
      let p2 := jsDigits r2
      if p2.1 = [] then none
      else
        match p2.2 with
        | '.' :: r4 =>
          let p3 := jsDigits r4
          if p3.1 = [] then none
          else
            (parsePreRel p3.2).map (fun pre =>
              ⟨digitsToNat p1.1, digitsToNat p2.1, digitsToNat p3.1, pre⟩)
        | r4 => (parsePreRel r4).map (fun pre => ⟨digitsToNat p1.1, digitsToNat p2.1, 0, pre⟩)
    | _ => none

example : parseSVer "0.3.17a4" = some ⟨0, 3, 17, some ('a', 4)⟩ := by decide
example : parseSVer "0.3.18" = some ⟨0, 3, 18, none⟩ := by decide
example : parseSVer "0.1.0" = some ⟨0, 1, 0, none⟩ := by decide
example : parseSVer "1.2" = some ⟨1, 2, 0, none⟩ := by decide
example : parseSVer "1.2b10" = some ⟨1, 2, 0, some ('b', 10)⟩ := by decide
example : parseSVer "1" = none := by decide
example : parseSVer "1.2.3c4" = none := by decide
example : parseSVer "1.2.3a" = none := by decide

/-- `StrictVersion.__le__`: version triples compare numerically; on a tie a
prerelease sorts before the release, and two prereleases compare as the
pair (letter, number). -/
def svLe (a b : SVer) : Bool :=
  if a.major < b.major then true
  else if b.major < a.major then false
  else if a.minor < b.minor then true
  else if b.minor < a.minor then false
  else if a.patch < b.patch then true
  else if b.patch < a.patch then false
  else
    match a.pre, b.pre with
    | none, none => true
    | some _, none => true
    | none, some _ => false
    | some p, some q =>
      if p.1 < q.1 then true else if q.1 < p.1 then false else p.2 ≤ q.2

/-- Modelled from the spec: "compare against threshold `0.3.17a4` using
semantic-version ordering (numeric major.minor.patch comparison with
pre-release segment treated as the most significant differentiator of
equal-numeric versions, ... pre-release < release)", with the prerelease
tie broken lexicographically as §9 directs. -/
def specVersionLe (a b : SVer) : Bool :=
  if (a.major, a.minor, a.patch) = (b.major, b.minor, b.patch) then
    match a.pre, b.pre with
    | none, none => true
    | some _, none => true
    | none, some _ => false
    | some p, some q => p.1 < q.1 ∨ (p.1 = q.1 ∧ p.2 ≤ q.2)
  else
    a.major < b.major ∨ (a.major = b.major ∧
      (a.minor < b.minor ∨ (a.minor = b.minor ∧ a.patch < b.patch)))

/-- The code's ordering coincides with the spec's ordering. -/
theorem svLe_eq_specVersionLe (a b : SVer) : svLe a b = specVersionLe a b := by
  obtain ⟨a1, a2, a3, ap⟩ := a
  obtain ⟨b1, b2, b3, bp⟩ := b
  simp only [svLe, specVersionLe]
  by_cases h1 : a1 < b1
  · rw [if_pos h1, if_neg (show ¬((a1, a2, a3) = (b1, b2, b3)) by
      simp only [Prod.ext_iff]; omega)]
    simp <;> omega
  · rw [if_neg h1]
    by_cases h2 : b1 < a1
    · rw [if_pos h2, if_neg (show ¬((a1, a2, a3) = (b1, b2, b3)) by
        simp only [Prod.ext_iff]; omega)]
      simp <;> omega
    · rw [if_neg h2]
      have e1 : a1 = b1 := by omega
      subst e1
      by_cases h3 : a2 < b2
      · rw [if_pos h3, if_neg (show ¬((a1, a2, a3) = (a1, b2, b3)) by
          simp only [Prod.ext_iff]; omega)]
        simp <;> omega
      · rw [if_neg h3]
        by_cases h4 : b2 < a2
        · rw [if_pos h4, if_neg (show ¬((a1, a2, a3) = (a1, b2, b3)) by
            simp only [Prod.ext_iff]; omega)]
          simp <;> omega
        · rw [if_neg h4]
          have e2 : a2 = b2 := by omega
          subst e2
          by_cases h5 : a3 < b3
          · rw [if_pos h5, if_neg (show ¬((a1, a2, a3) = (a1, a2, b3)) by
              simp only [Prod.ext_iff]; omega)]
            simp <;> omega
          · rw [if_neg h5]
            by_cases h6 : b3 < a3
            · rw [if_pos h6, if_neg (show ¬((a1, a2, a3) = (a1, a2, b3)) by
                simp only [Prod.ext_iff]; omega)]
              simp <;> omega
            · rw [if_neg h6]
              have e3 : a3 = b3 := by omega
              subst e3
              rw [if_pos rfl]
              match ap, bp with
              | none, none => rfl
              | some _, none => rfl
              | none, some _ => rfl
              | some p, some q =>
                by_cases hc : p.1 < q.1
                · simp [hc]
                · by_cases hd : q.1 < p.1
                  · have hne : p.1 ≠ q.1 := fun he => absurd hd (by
                      rw [he]; exact lt_irrefl _)
                    simp [hc, hd, hne]
                  · have he : p.1 = q.1 :=
                      le_antisymm (le_of_not_lt hd) (le_of_not_lt hc)
                    simp [hc, hd, he]

/-- The gate threshold `StrictVersion("0.3.17a4")`. -/
def thresholdVer : SVer := ⟨0, 3, 17, some ('a', 4)⟩

/-! ## Embedding of `spec.py` -/

def PyObj.find (o : PyObj) (k : String) : Option PyJson := objFind o.toList k

def PyObj.upsert (o : PyObj) (k : String) (v : PyJson) : PyObj :=
  PyObj.ofList (objUpsert o.toList k v)

/-- Python subscript `obj[key]` with a string key: `KeyError` on a dict
missing the key, `TypeError` on any non-dict (list and string subscripts
require integers; other values are not subscriptable). -/
def pySubscript (v : PyJson) (key : String) : Except PyError PyJson :=
  match v with
  | .obj o =>
    match o.find key with
    | some w => .ok w
    | none => .error (.keyError key)
  | _ => .error .typeError

/-- Python `obj.get(key)` / `obj.get(key, default)` resolved to an
`Option`: `AttributeError` on any non-dict receiver. -/
def pyGet (v : PyJson) (key : String) : Except PyError (Option PyJson) :=
  match v with
  | .obj o => .ok (o.find key)
  | _ => .error .attributeError

/-- Python `a + b` restricted to what the two `encodings` payloads can be
made to iterate over: two lists concatenate, two strings concatenate and
iterate as one-character strings, anything else is a `TypeError` (either
unsupported `+`, or a number that the following `for` cannot iterate). -/
def pyConcatIter (a b : PyJson) : Except PyError (List PyJson) :=
  match a, b with
  | .arr x, .arr y => .ok (x.toList ++ y.toList)
  | .str x, .str y => .ok ((x ++ y).data.map (fun c => .str (String.mk [c])))
  | _, _ => .error .typeError

/-- Hashability for use as a dict key or set element. -/
def pyHashable : PyJson → Bool
  | .arr _ => false
  | .obj _ => false
  | _ => true

/-- An apostrophe, kept out of string literals. -/
def apos : String := String.mk [Char.ofNat 39]

inductive SourceTag where
  | empty_string
  | json_string
  | json_ksf
  | json_http
  | json_server
  | json_file
deriving DecidableEq

/-- Python `s.startswith(pre)`. -/
def pyStartswith (s pre : String) : Bool := pre.data.isPrefixOf s.data

/-- `_is_config_id` (spec.py lines 43-51): exactly 32 characters and
`int(config_id, 16)` succeeds. -/
def _is_config_id (config_id : String) : Bool :=
  if config_id.length ≠ 32 then false
  else pyInt16Valid config_id

/-- The ambient state `spec.py` reads.  `privacy` is the
`GlobalVarManager.privacy` flag; `cloudFetch`, `httpFetch` and
`serverFetch` are the three I/O collaborators `read_config_from_cloud`,
`_get_spec_from_url` and `_get_spec_from_server` as oracles (modelled from
the spec: they are external services "returning JSON or raising on invalid
identifiers"); `fs` is the filesystem as a finite map; `renameCols` is
`rename_columns` (modelled from the spec: a "pure function mapping an
ordered list of display names to an ordered list of sanitized
identifiers"); `randSeq n` is the value of the n-th call of `rand_str`
(modelled from the spec: "an opaque unique-string source"). -/
structure SpecEnv where
  privacy : String
  cloudFetch : String → Except PyError String
  httpFetch : String → Except PyError String
  serverFetch : String → Except PyError String
  fs : List (String × String)
  renameCols : List String → List String
  randSeq : Nat → String

def fsLookup (fs : List (String × String)) (p : String) : Option String :=
  (fs.find? (fun e => e.1 = p)).map Prod.snd

def privacyMsg : String :=
  "Due to privacy policy, you can" ++ apos ++ "t use this spec offline"

/-- `_get_spec_json_from_diff_source` (spec.py lines 54-85).  The result
carries the fetched text, the source tag, and the filesystem after the
placeholder-file side effect. -/
def _get_spec_json_from_diff_source (env : SpecEnv) (spec : String) :
    Except PyError (String × SourceTag × List (String × String)) :=
  if spec = "" then .ok ("", .empty_string, env.fs)
  else if _is_json spec then .ok (spec, .json_string, env.fs)
  else if pyStartswith spec "ksf://" then
    if env.privacy = "offline" then .error (.privacyError privacyMsg)
    else (env.cloudFetch (String.mk (spec.data.drop 6))).map
      (fun s => (s, .json_ksf, env.fs))
  else if pyStartswith spec "http:" || pyStartswith spec "https:" then
    if env.privacy = "offline" then .error (.privacyError privacyMsg)
    else (env.httpFetch spec).map (fun s => (s, .json_http, env.fs))
  else if _is_config_id spec then
    if env.privacy = "offline" then .error (.privacyError privacyMsg)
    else (env.serverFetch spec).map (fun s => (s, .json_server, env.fs))
  else if 200 < (pyBasename spec).length then
    .error (.valueError "Spec file name too long")
  else
    match fsLookup env.fs spec with
    | some content => .ok (content, .json_file, env.fs)
    | none => .ok ("", .json_file, (spec, "") :: env.fs)

/-- The classification decision of `_get_spec_json_from_diff_source`,
factored as a pure function of the spec string. -/
def classifySpec (s : String) : SourceTag :=
  if s = "" then .empty_string
  else if _is_json s then .json_string
  else if pyStartswith s "ksf://" then .json_ksf
  else if pyStartswith s "http:" || pyStartswith s "https:" then .json_http
  else if _is_config_id s then .json_server
  else .json_file

/-- One step of the dict comprehension in `_config_adapter` (spec.py lines
91-95): the filter evaluates `field.get("computed", False)` and
`field.get("fid") not in ["gw_mea_val_fid", "gw_mea_key_fid"]` first; kept
fields then evaluate `field["fid"]` and `field["name"]` and write the pair
into the dict (existing keys keep their position, the value is updated;
an unhashable key is a `TypeError`). -/
def fidMapUpsert (m : List (PyJson × PyJson)) (k v : PyJson) :
    List (PyJson × PyJson) :=
  match m with
  | [] => [(k, v)]
  | (k0, v0) :: rest =>
    if k0 = k then (k0, v) :: rest else (k0, v0) :: fidMapUpsert rest k v

def fidNameMapStep (m : List (PyJson × PyJson)) (field : PyJson) :
    Except PyError (List (PyJson × PyJson)) := do
  let computed ← pyGet field "computed"
  let fidOpt ← pyGet field "fid"
  if ¬pyTruthy (computed.getD (.bool false)) ∧
      ¬(fidOpt = some (.str "gw_mea_val_fid") ∨
        fidOpt = some (.str "gw_mea_key_fid")) then
    do
    let fid ← pySubscript field "fid"
    let name ← pySubscript field "name"
    if pyHashable fid then .ok (fidMapUpsert m fid name)
    else .error .typeError
  else .ok m

def buildFidNameMap : List PyJson → List (PyJson × PyJson) →
    Except PyError (List (PyJson × PyJson))
  | [], m => .ok m
  | f :: rest, m => do buildFidNameMap rest (← fidNameMapStep m f)

/-- The display names handed to `rename_columns` must be strings (modelled
from the spec: the sanitizer consumes "display names"). -/
def asStrList : List PyJson → Option (List String)
  | [] => some []
  | .str s :: rest => (asStrList rest).map (s :: .)
  | _ :: _ => none

/-- The `for old_fid, new_fid in zip(...): config = config.replace(...)`
loop (spec.py lines 103-104): each replacement acts on the ENTIRE running
config string.  A non-string old id is a `TypeError` (`str.replace`
requires strings). -/
def replaceFold (config : String) : List (PyJson × String) →
    Except PyError String
  | [] => .ok config
  | (.str old, new) :: rest => replaceFold (pyReplace config old new) rest
  | (_, _) :: _ => .error .typeError

/-- Per chart item body of `_config_adapter`: read
`chart_item["encodings"]["dimensions"] + ...["measures"]`, build the
old-id-to-name dict, sanitize the names, and fold the replacements over
the running config string. -/
def adaptChartItem (env : SpecEnv) (config : String) (chart_item : PyJson) :
    Except PyError String := do
  let enc ← pySubscript chart_item "encodings"
  let dims ← pySubscript enc "dimensions"
  let meas ← pySubscript enc "measures"
  let fields ← pyConcatIter dims meas
  let m ← buildFidNameMap fields []
  match asStrList (m.map Prod.snd) with
  | none => .error .typeError
  | some names =>
    replaceFold config ((m.map Prod.fst).zip (env.renameCols names))

def adaptItems (env : SpecEnv) : String → List PyJson → Except PyError String
  | config, [] => .ok config
  | config, it :: rest => do adaptItems env (← adaptChartItem env config it) rest

/-- `_config_adapter` (spec.py lines 88-106).  `json.loads` failure here is
an uncaught `JSONDecodeError`; iterating a dict yields its keys, a string
its characters; other scalars are not iterable. -/
def _config_adapter (env : SpecEnv) (config : String) :
    Except PyError String :=
  match parseJson config with
  | none => .error .jsonDecodeError
  | some cfg =>
    match cfg with
    | .arr items => adaptItems env config items.toList
    | .obj o => adaptItems env config (o.toList.map (fun kv => .str kv.1))
    | .str s => adaptItems env config (s.data.map (fun c => .str (String.mk [c])))
    | _ => .error .typeError

/-- The set comprehension `{field["fid"] for field in dims + meas}` of
`fill_new_fields` (spec.py lines 129-132), as the list of fids (membership
is all the set is used for; an unhashable fid is a `TypeError`). -/
def fieldSet : List PyJson → Except PyError (List PyJson)
  | [] => .ok []
  | f :: rest => do
    let fid ← pySubscript f "fid"
    if pyHashable fid then
      do .ok (fid :: (← fieldSet rest))
    else .error .typeError

/-- The `for field in all_fields` loop of `fill_new_fields` (spec.py lines
135-145): skip fields whose fid is already present, otherwise build
`gw_field = {**field, "basename": field["name"], "dragId": "GW_" + rand_str()}`
and route it to the new-dimensions or new-measures list by
`field["analyticType"] == "dimension"`.  The counter indexes `rand_str`
calls.  The `not in` test hashes `field["fid"]` first, so an unhashable
fid is a `TypeError`; membership is structural equality, faithful for the
string fids the data model prescribes. -/
def splitNewFields (env : SpecEnv) (fset : List PyJson) :
    List PyObj → Nat → Except PyError (List PyJson × List PyJson × Nat)
  | [], n => .ok ([], [], n)
  | f :: rest, n => do
    let fid ← pySubscript (.obj f) "fid"
    if ¬pyHashable fid then .error .typeError
    else if fset.contains fid then
      splitNewFields env fset rest n
    else do
      let name ← pySubscript (.obj f) "name"
      let gw : PyObj := (f.upsert "basename" name).upsert "dragId"
        (.str ("GW_" ++ env.randSeq n))
      let aty ← pySubscript (.obj f) "analyticType"
      let p ← splitNewFields env fset rest (n + 1)
      if aty = .str "dimension" then
        .ok (.obj gw :: p.1, p.2.1, p.2.2)
      else
        .ok (p.1, .obj gw :: p.2.1, p.2.2)

/-- Per chart item body of `fill_new_fields`: compute the fid set from
`dimensions + measures`, split the missing dataset fields, and extend both
lists in place.  `pyConcatIter` succeeding on non-lists only happens for
two empty strings, whose `.extend` is then an `AttributeError`. -/
def fillChartItem (env : SpecEnv) (all_fields : List PyObj) (item : PyJson)
    (n : Nat) : Except PyError (PyJson × Nat) := do
  let enc ← pySubscript item "encodings"
  let dims ← pySubscript enc "dimensions"
  let meas ← pySubscript enc "measures"
  let fields ← pyConcatIter dims meas
  let fset ← fieldSet fields
  let r ← splitNewFields env fset all_fields n
  match item, enc, dims, meas with
  | .obj io, .obj eo, .arr dl, .arr ml =>
    let eo2 := (eo.upsert "dimensions" (.arr (PyArr.ofList (dl.toList ++ r.1)))).upsert
      "measures" (.arr (PyArr.ofList (ml.toList ++ r.2.1)))
    .ok (.obj (io.upsert "encodings" (.obj eo2)), r.2.2)
  | _, _, _, _ => .error .attributeError

def fillItems (env : SpecEnv) (all_fields : List PyObj) :
    List PyJson → Nat → Except PyError (List PyJson × Nat)
  | [], n => .ok ([], n)
  | it :: rest, n => do
    let r ← fillChartItem env all_fields it n
    let p ← fillItems env all_fields rest r.2
    .ok (r.1 :: p.1, p.2)

/-- `fill_new_fields` (spec.py lines 125-149): parse the config, extend
every chart item, and re-serialize with `json.dumps`.  A non-list top
level iterates keys (dict) or characters (string); any non-empty such
iteration hits a string subscript (`TypeError`). -/
def fill_new_fields (env : SpecEnv) (config : String)
    (all_fields : List PyObj) (n : Nat) : Except PyError (String × Nat) :=
  match parseJson config with
  | none => .error .jsonDecodeError
  | some cfg =>
    match cfg with
    | .arr items => do
      let p ← fillItems env all_fields items.toList n
      .ok (pyDumps (.arr (PyArr.ofList p.1)), p.2)
    | .obj .nil => .ok (pyDumps (.obj .nil), n)
    | .obj (.cons _ _ _) => .error .typeError
    | .str s => if s = "" then .ok (pyDumps (.str ""), n) else .error .typeError
    | _ => .error .typeError

/-- The empty document `{"chart_map": {}, "config": ""}`. -/
def emptySpecDoc : PyJson :=
  .obj (.cons "chart_map" (.obj .nil) (.cons "config" (.str "") .nil))

/-- The wrapped legacy document `{"chart_map": {}, "config": spec}`. -/
def wrapLegacy (spec : String) : PyJson :=
  .obj (.cons "chart_map" (.obj .nil) (.cons "config" (.str spec) .nil))

/-- The body of `get_spec_json` after the parse (spec.py lines 163-169):
wrap a legacy list, read `version` via `.get` (default `"0.1.0"`,
`AttributeError` on a non-dict, `TypeError` when `StrictVersion` gets a
non-string), parse it (`ValueError` on a malformed version), and when the
gate fires rewrite `spec_obj["config"]` through `_config_adapter`
(`KeyError` when absent, `TypeError` when not a string). -/
def migrateStage (env : SpecEnv) (specTxt : String) (v0 : PyJson) :
    Except PyError PyJson :=
  let sobj := match v0 with
    | .arr _ => wrapLegacy specTxt
    | w => w
  match sobj with
  | .obj so =>
    match (objFind so.toList "version").getD (.str "0.1.0") with
    | .str vs =>
      match parseSVer vs with
      | none =>
        .error (.valueError ("invalid version number " ++ apos ++ vs ++ apos))
      | some sv =>
        if svLe sv thresholdVer then
          match objFind so.toList "config" with
          | none => .error (.keyError "config")
          | some (.str cfg) =>
            (_config_adapter env cfg).map (fun c2 => .obj (so.upsert "config" (.str c2)))
          | some _ => .error .typeError
        else .ok (.obj so)
    | _ => .error .typeError
  | _ => .error .attributeError

/-- `get_spec_json` (spec.py lines 152-169).  Returns the resolved
document, its source tag, and the filesystem after side effects. -/
def get_spec_json (env : SpecEnv) (spec : String) :
    Except PyError ((PyJson × SourceTag) × List (String × String)) := do
  let r ← _get_spec_json_from_diff_source env spec
  match r with
  | (specTxt, tag, fs2) =>
    if specTxt = "" then .ok ((emptySpecDoc, tag), fs2)
    else
      match parseJson specTxt with
      | none => .error (.valueError "spec is not a valid json")
      | some v0 => (migrateStage env specTxt v0).map (fun d => ((d, tag), fs2))

/-! ## Lookup and update lemmas -/

theorem objFind_upsert_same : ∀ (l : List (String × PyJson)) (k : String) (v : PyJson),
    objFind (objUpsert l k v) k = some v
  | [], k, v => by simp [objUpsert, objFind]
  | (k2, v2) :: l, k, v => by
    by_cases h : k2 = k
    · simp [objUpsert, h, objFind]
    · simp [objUpsert, h, objFind, objFind_upsert_same l k v]

theorem objFind_upsert_other : ∀ (l : List (String × PyJson)) (k k2 : String)
    (v : PyJson), k2 ≠ k → objFind (objUpsert l k v) k2 = objFind l k2
  | [], k, k2, v, h => by
    have hks : k ≠ k2 := Ne.symm h
    simp [objUpsert, objFind, hks]
  | (k0, v0) :: l, k, k2, v, h => by
    by_cases h0 : k0 = k
    · subst h0
      have hks : k0 ≠ k2 := Ne.symm h
      simp [objUpsert, objFind, hks]
    · by_cases h2 : k0 = k2
      · subst h2
        simp [objUpsert, h0, objFind]
      · simp [objUpsert, h0, objFind, h2, objFind_upsert_other l k k2 v h]

theorem objUpsert_self : ∀ (l : List (String × PyJson)) (k : String) (v : PyJson),
    objFind l k = some v → objUpsert l k v = l
  | [], k, v, h => by simp [objFind] at h
  | (k2, v2) :: l, k, v, h => by
    by_cases h2 : k2 = k
    · simp only [objFind, if_pos h2, Option.some.injEq] at h
      simp [objUpsert, h2, h]
    · simp only [objFind, if_neg h2] at h
      simp [objUpsert, h2, objUpsert_self l k v h]

theorem pfind_upsert_same (o : PyObj) (k : String) (v : PyJson) :
    (o.upsert k v).find k = some v := by
  simp [PyObj.find, PyObj.upsert, objToList_ofList, objFind_upsert_same]

theorem pfind_upsert_other (o : PyObj) (k k2 : String) (v : PyJson) (h : k2 ≠ k) :
    (o.upsert k v).find k2 = o.find k2 := by
  simp [PyObj.find, PyObj.upsert, objToList_ofList, objFind_upsert_other _ _ _ _ h]

theorem pupsert_self (o : PyObj) (k : String) (v : PyJson) (h : o.find k = some v) :
    o.upsert k v = o := by
  simp [PyObj.upsert, objUpsert_self o.toList k v h, objOfList_toList]

/-! ## Well-formedness is preserved by the reconciler's updates -/

theorem wfO_toList : ∀ (o : PyObj), wfO o = true → ∀ kv ∈ o.toList, wfV kv.2 = true
  | .nil, _ => by simp [PyObj.toList]
  | .cons k v tl, h => by
    simp only [wfO, Bool.and_eq_true] at h
    intro kv hkv
    rcases List.mem_cons.mp hkv with rfl | hkv2
    · exact h.1
    · exact wfO_toList tl h.2 kv hkv2

theorem wfA_toList : ∀ (a : PyArr), wfA a = true → ∀ x ∈ a.toList, wfV x = true
  | .nil, _ => by simp [PyArr.toList]
  | .cons x tl, h => by
    simp only [wfA, Bool.and_eq_true] at h
    intro y hy
    rcases List.mem_cons.mp hy with rfl | hy2
    · exact h.1
    · exact wfA_toList tl h.2 y hy2

theorem wfO_find : ∀ (o : PyObj) (k : String) (v : PyJson), wfO o = true →
    o.find k = some v → wfV v = true
  | .nil, k, v, _, h => by simp [PyObj.find, PyObj.toList, objFind] at h
  | .cons k2 v2 tl, k, v, hw, h => by
    simp only [wfO, Bool.and_eq_true] at hw
    simp only [PyObj.find, PyObj.toList, objFind] at h
    by_cases h2 : k2 = k
    · rw [if_pos h2] at h
      cases h
      exact hw.1
    · rw [if_neg h2] at h
      exact wfO_find tl k v hw.2 h

theorem wfObj_upsert (o : PyObj) (k : String) (v : PyJson)
    (hv : wfV v = true) (ho : wfV (.obj o) = true) :
    wfV (.obj (o.upsert k v)) = true := by
  simp only [wfV, Bool.and_eq_true] at ho ⊢
  obtain ⟨hnd, hwo⟩ := ho
  constructor
  · exact noDupKeys_ofList _ (objUpsert_pairwise _ k v (noDupKeys_pairwise o hnd))
  · refine wfO_ofList _ ?_
    intro kv hkv
    rcases objUpsert_mem o.toList k v kv hkv with h1 | rfl
    · exact wfO_toList o hwo kv h1
    · exact hv

theorem wfArr_append (a : PyArr) (l : List PyJson) (ha : wfA a = true)
    (hl : ∀ x ∈ l, wfV x = true) : wfA (PyArr.ofList (a.toList ++ l)) = true := by
  refine wfA_ofList _ ?_
  intro x hx
  rcases List.mem_append.mp hx with h1 | h2
  · exact wfA_toList a ha x h1
  · exact hl x h2

/-! ## Concrete environments for witnesses -/

def plainEnv : SpecEnv :=
  ⟨"", fun _ => .error .typeError, fun _ => .error .typeError,
   fun _ => .error .typeError, [], fun l => l, fun _ => ""⟩

def offlineEnv : SpecEnv :=
  ⟨"offline", fun _ => .error .typeError, fun _ => .error .typeError,
   fun _ => .error .typeError, [], fun l => l, fun _ => ""⟩

/-- A JSON value that is neither an object nor a list. -/
def pyScalar : PyJson → Bool
  | .arr _ => false
  | .obj _ => false
  | _ => true

theorem parseJson_empty : parseJson "" = none := rfl

/-! ## C9 -/

/-- C9: a non-empty string that parses as a JSON value which is neither an
object nor a list is tagged `json_string` by the classifier, and
`get_spec_json` then dies with an unhandled `AttributeError` (from
`spec_obj.get` on a non-dict), not with one of the specified error
kinds. -/
theorem C9_scalar_spec_attribute_error (env : SpecEnv) (s : String) (v : PyJson)
    (hp : parseJson s = some v) (hv : pyScalar v = true) :
    classifySpec s = SourceTag.json_string ∧
    get_spec_json env s = .error PyError.attributeError := by
  have hne : s ≠ "" := by
    intro h
    rw [h, parseJson_empty] at hp
    exact absurd hp (by simp)
  have hj : _is_json s = true := by simp [_is_json, hp]
  have hsrc : _get_spec_json_from_diff_source env s =
      .ok (s, SourceTag.json_string, env.fs) := by
    simp [_get_spec_json_from_diff_source, hne, hj]
  refine ⟨by simp [classifySpec, hne, hj], ?_⟩
  cases v
  case arr a => exact absurd hv (by simp [pyScalar])
  case obj o => exact absurd hv (by simp [pyScalar])
  all_goals simp [get_spec_json, migrateStage, hsrc, hne, hp, Except.instMonad,
    Except.bind, Except.map]

theorem C9_witness :
    classifySpec "true" = SourceTag.json_string ∧
    get_spec_json plainEnv "true" = .error PyError.attributeError :=
  C9_scalar_spec_attribute_error plainEnv "true" (.bool true) (by decide) (by decide)

/-! ## C8 -/

theorem classify_file_inv (s : String) (h : classifySpec s = SourceTag.json_file) :
    s ≠ "" ∧ _is_json s = false ∧ pyStartswith s "ksf://" = false ∧
    (pyStartswith s "http:" || pyStartswith s "https:") = false ∧
    _is_config_id s = false := by
  have h1 : ¬(s = "") := by
    intro hx
    simp [classifySpec, hx] at h
  have h2 : _is_json s = false := by
    by_cases hx : _is_json s
    · simp [classifySpec, h1, hx] at h
    · simpa using hx
  have h3 : pyStartswith s "ksf://" = false := by
    by_cases hx : pyStartswith s "ksf://"
    · simp [classifySpec, h1, h2, hx] at h
    · simpa using hx
  have h4 : (pyStartswith s "http:" || pyStartswith s "https:") = false := by
    by_cases hx : (pyStartswith s "http:" || pyStartswith s "https:")
    · simp [classifySpec, h1, h2, h3, hx] at h
    · simpa using hx
  have h5 : _is_config_id s = false := by
    by_cases hx : _is_config_id s
    · simp [classifySpec, h1, h2, h3, h4, hx] at h
    · simpa using hx
  exact ⟨h1, h2, h3, h4, h5⟩

/-- C8: for spec strings that fall through to the local-file branch, a base
name longer than 200 characters is a `ValueError "Spec file name too
long"`; a missing file is created empty (the returned file map gains a
zero-length entry at that path) and the resolver returns the empty
document tagged `json_file`. -/
theorem C8_file_branch (env : SpecEnv) (s t : String)
    (hs : classifySpec s = SourceTag.json_file)
    (hsb : 200 < (pyBasename s).length)
    (ht : classifySpec t = SourceTag.json_file)
    (htb : (pyBasename t).length ≤ 200)
    (htf : fsLookup env.fs t = none) :
    get_spec_json env s = .error (PyError.valueError "Spec file name too long") ∧
    get_spec_json env t = .ok ((emptySpecDoc, SourceTag.json_file), (t, "") :: env.fs) ∧
    fsLookup ((t, "") :: env.fs) t = some "" := by
  obtain ⟨h1, h2, h3, h4, h5⟩ := classify_file_inv s hs
  obtain ⟨g1, g2, g3, g4, g5⟩ := classify_file_inv t ht
  refine ⟨?_, ?_, ?_⟩
  · have hsrc : _get_spec_json_from_diff_source env s =
        .error (.valueError "Spec file name too long") := by
      simp [_get_spec_json_from_diff_source, h1, h2, h3, h4, h5, hsb]
    simp [get_spec_json, hsrc, Except.instMonad, Except.bind]
  · have hsrc : _get_spec_json_from_diff_source env t =
        .ok ("", .json_file, (t, "") :: env.fs) := by
      simp [_get_spec_json_from_diff_source, g1, g2, g3, g4, g5, htf,
        Nat.not_lt.mpr htb]
    simp [get_spec_json, hsrc, Except.instMonad, Except.bind]
  · simp [fsLookup]

set_option maxRecDepth 8192 in
theorem C8_witness :
    get_spec_json plainEnv (String.mk ('.' :: '/' :: List.replicate 201 'a')) =
      .error (PyError.valueError "Spec file name too long") ∧
    get_spec_json plainEnv "./nope.json" =
      .ok ((emptySpecDoc, SourceTag.json_file), ("./nope.json", "") :: plainEnv.fs) ∧
    fsLookup (("./nope.json", "") :: plainEnv.fs) "./nope.json" = some "" :=
  C8_file_branch plainEnv (String.mk ('.' :: '/' :: List.replicate 201 'a'))
    "./nope.json" (by decide) (by decide) (by decide) (by decide) (by decide)

/-! ## C4 -/

theorem startswith_head (s pre : String) (c : Char) (hc : pre.data.head? = some c)
    (h : pyStartswith s pre = true) : s.data.head? = some c := by
  have hpre : pre.data <+: s.data := by
    simpa [pyStartswith] using h
  obtain ⟨t, ht⟩ := hpre
  cases hd : pre.data with
  | nil => rw [hd] at hc; simp at hc
  | cons c0 rest =>
    rw [hd] at hc
    simp only [List.head?] at hc
    rw [hd] at ht
    rw [← ht]
    simpa using hc

theorem startswith_ne_empty (s pre : String) (c : Char)
    (hc : pre.data.head? = some c) (h : pyStartswith s pre = true) : s ≠ "" := by
  intro h0
  have := startswith_head s pre c hc h
  rw [h0] at this
  simp at this

theorem dropWhile_all_false (p : Char → Bool) : ∀ (l : List Char),
    (∀ c ∈ l, p c = false) → l.dropWhile p = l
  | [], _ => rfl
  | c :: t, h => by
    have hc := h c (by simp)
    simp [List.dropWhile_cons, hc]

theorem pyStrip_head (c : Char) (t : List Char) (hw : pyWsp c = false) :
    ∃ t2, pyStrip (c :: t) = c :: t2 := by
  have h1 : (c :: t).dropWhile pyWsp = c :: t := by
    simp [List.dropWhile_cons, hw]
  have hsuf : ((c :: t).reverse).dropWhile pyWsp <:+ (c :: t).reverse :=
    List.dropWhile_suffix _
  have hne : ((c :: t).reverse).dropWhile pyWsp ≠ [] := by
    intro h0
    rw [List.dropWhile_eq_nil_iff] at h0
    have := h0 c (by simp)
    rw [hw] at this
    exact absurd this (by simp)
  have hlast : (((c :: t).reverse).dropWhile pyWsp).getLast? = some c := by
    obtain ⟨pre2, hpre2⟩ := hsuf
    have hrl : ((c :: t).reverse).getLast? = some c := by
      rw [List.getLast?_reverse]
      rfl
    rw [← hpre2, List.getLast?_append_of_ne_nil pre2 hne] at hrl
    exact hrl
  have hps : pyStrip (c :: t) = (((c :: t).reverse).dropWhile pyWsp).reverse := by
    simp [pyStrip, h1]
  have hh : ((((c :: t).reverse).dropWhile pyWsp).reverse).head? = some c := by
    rw [List.head?_reverse]
    exact hlast
  cases hur : (((c :: t).reverse).dropWhile pyWsp).reverse with
  | nil => rw [hur] at hh; simp at hh
  | cons c2 t2 =>
    rw [hur] at hh
    simp only [List.head?, Option.some.injEq] at hh
    exact ⟨t2, by rw [hps, hur, hh]⟩

theorem pyInt16Valid_head (s : String) (c : Char) (hh : s.data.head? = some c)
    (hw : pyWsp c = false) (hp : c ≠ '+') (hm : c ≠ '-')
    (hx : isHexDig c = false) : pyInt16Valid s = false := by
  obtain ⟨t, ht⟩ : ∃ t, s.data = c :: t := by
    cases hd : s.data with
    | nil => rw [hd] at hh; simp at hh
    | cons c0 t0 =>
      rw [hd] at hh
      simp only [List.head?, Option.some.injEq] at hh
      exact ⟨t0, by rw [hh]⟩
  obtain ⟨t2, ht2⟩ := pyStrip_head c t hw
  simp only [pyInt16Valid, ht, ht2]
  have hsign : ¬((c :: t2).head? = some '+' ∨ (c :: t2).head? = some '-') := by
    simp only [List.head?, Option.some.injEq]
    push_neg
    exact ⟨hp, hm⟩
  rw [if_neg hsign]
  have hc0 : c ≠ '0' := by
    intro h0
    rw [h0] at hx
    exact absurd hx (by decide)
  cases t2 with
  | nil => simp [hexDigitsUnd, hx]
  | cons c1 r =>
    simp only []
    rw [if_neg (by intro hand; exact hc0 hand.1)]
    simp [hexDigitsUnd, hx]

theorem is_config_id_iff (s : String) :
    _is_config_id s = true ↔ s.length = 32 ∧ pyInt16Valid s = true := by
  by_cases h : s.length = 32
  · simp [_is_config_id, h]
  · simp [_is_config_id, h]

theorem config_id_not_ksf (s : String) (h : _is_config_id s = true) :
    pyStartswith s "ksf://" = false := by
  by_cases hx : pyStartswith s "ksf://"
  · have hint : pyInt16Valid s = false :=
      pyInt16Valid_head s 'k' (startswith_head s "ksf://" 'k' rfl hx)
        (by decide) (by decide) (by decide) (by decide)
    rw [((is_config_id_iff s).mp h).2] at hint
    exact absurd hint (by simp)
  · simpa using hx

theorem config_id_not_http (s : String) (h : _is_config_id s = true) :
    (pyStartswith s "http:" || pyStartswith s "https:") = false := by
  have hk : ∀ pre : String, pre.data.head? = some 'h' →
      pyStartswith s pre = true → False := by
    intro pre hpre hx
    have hint : pyInt16Valid s = false :=
      pyInt16Valid_head s 'h' (startswith_head s pre 'h' hpre hx)
        (by decide) (by decide) (by decide) (by decide)
    rw [((is_config_id_iff s).mp h).2] at hint
    exact absurd hint (by simp)
  cases hx : pyStartswith s "http:" with
  | true => exact (hk "http:" rfl hx).elim
  | false =>
    cases hy : pyStartswith s "https:" with
    | true => exact (hk "https:" rfl hy).elim
    | false => rfl

/-- C4: with the privacy flag `"offline"`, a `ksf://` spec, an
`http:`/`https:` spec, and a 32-hex config-id spec each fail with the
privacy error — for every choice of the three network oracles, i.e. before
any network access — while a literal-JSON spec and a local-file spec still
resolve offline. -/
theorem C4_offline (env : SpecEnv) (s1 s2 s3 s4 s5 : String)
    (hoff : env.privacy = "offline")
    (h1 : pyStartswith s1 "ksf://" = true) (h1j : _is_json s1 = false)
    (h2 : (pyStartswith s2 "http:" || pyStartswith s2 "https:") = true)
    (h2j : _is_json s2 = false)
    (h3 : _is_config_id s3 = true) (h3j : _is_json s3 = false)
    (h4 : _is_json s4 = true)
    (h5 : classifySpec s5 = SourceTag.json_file)
    (h5b : (pyBasename s5).length ≤ 200) :
    _get_spec_json_from_diff_source env s1 = .error (.privacyError privacyMsg) ∧
    _get_spec_json_from_diff_source env s2 = .error (.privacyError privacyMsg) ∧
    _get_spec_json_from_diff_source env s3 = .error (.privacyError privacyMsg) ∧
    _get_spec_json_from_diff_source env s4 = .ok (s4, SourceTag.json_string, env.fs) ∧
    ∃ p, _get_spec_json_from_diff_source env s5 = .ok p ∧
      p.2.1 = SourceTag.json_file := by
  refine ⟨?_, ?_, ?_, ?_, ?_⟩
  · have hne : s1 ≠ "" := startswith_ne_empty s1 "ksf://" 'k' rfl h1
    simp [_get_spec_json_from_diff_source, hne, h1j, h1, hoff]
  · have hh : s2.data.head? = some 'h' := by
      cases hx : pyStartswith s2 "http:" with
      | true => exact startswith_head s2 "http:" 'h' rfl hx
      | false =>
        rw [hx] at h2
        simp only [Bool.false_or] at h2
        exact startswith_head s2 "https:" 'h' rfl h2
    have hne : s2 ≠ "" := by
      intro h0
      rw [h0] at hh
      simp at hh
    have hks : pyStartswith s2 "ksf://" = false := by
      cases hx : pyStartswith s2 "ksf://" with
      | true =>
        have := startswith_head s2 "ksf://" 'k' rfl hx
        rw [hh] at this
        simp at this
      | false => rfl
    simp [_get_spec_json_from_diff_source, hne, h2j, hks, h2, hoff]
  · have h32 := (is_config_id_iff s3).mp h3
    have hne : s3 ≠ "" := by
      intro h0
      rw [h0] at h32
      simp [String.length] at h32
    simp [_get_spec_json_from_diff_source, hne, h3j, config_id_not_ksf s3 h3,
      config_id_not_http s3 h3, h3, hoff]
  · have hne : s4 ≠ "" := by
      intro h0
      rw [h0] at h4
      exact absurd h4 (by decide)
    simp [_get_spec_json_from_diff_source, hne, h4]
  · obtain ⟨g1, g2, g3, g4, g5⟩ := classify_file_inv s5 h5
    cases hfs : fsLookup env.fs s5 with
    | none =>
      refine ⟨("", .json_file, (s5, "") :: env.fs), ?_, rfl⟩
      simp [_get_spec_json_from_diff_source, g1, g2, g3, g4, g5, hfs,
        Nat.not_lt.mpr h5b]
    | some content =>
      refine ⟨(content, .json_file, env.fs), ?_, rfl⟩
      simp [_get_spec_json_from_diff_source, g1, g2, g3, g4, g5, hfs,
        Nat.not_lt.mpr h5b]

theorem C4_witness :
    _get_spec_json_from_diff_source offlineEnv "ksf://x" =
      .error (.privacyError privacyMsg) ∧
    _get_spec_json_from_diff_source offlineEnv "http://x" =
      .error (.privacyError privacyMsg) ∧
    _get_spec_json_from_diff_source offlineEnv
      (String.mk (List.replicate 32 'f')) = .error (.privacyError privacyMsg) ∧
    _get_spec_json_from_diff_source offlineEnv "[1]" =
      .ok ("[1]", SourceTag.json_string, offlineEnv.fs) ∧
    ∃ p, _get_spec_json_from_diff_source offlineEnv "nope.json" = .ok p ∧
      p.2.1 = SourceTag.json_file :=
  C4_offline offlineEnv "ksf://x" "http://x" (String.mk (List.replicate 32 'f'))
    "[1]" "nope.json" rfl (by decide) (by decide) (by decide) (by decide)
    (by decide) (by decide) (by decide) (by decide) (by decide)

/-! ## C3 -/

theorem hexDig_not_wsp (c : Char) (h : isHexDig c = true) : pyWsp c = false := by
  simp only [pyWsp, Bool.or_eq_false_iff, decide_eq_false_iff_not]
  refine ⟨⟨⟨⟨⟨?_, ?_⟩, ?_⟩, ?_⟩, ?_⟩, ?_⟩
  all_goals (intro he; subst he; exact absurd h (by decide))

theorem hexDigitsUnd_all : ∀ (l : List Char), (∀ c ∈ l, isHexDig c = true) →
    l ≠ [] → hexDigitsUnd l = true
  | [], _, hne => absurd rfl hne
  | c :: rest, h, _ => by
    have hc := h c (by simp)
    rw [hexDigitsUnd.eq_def]
    simp only [hc, if_true]
    cases rest with
    | nil => rfl
    | cons c2 r2 =>
      have hc2 := h c2 (by simp)
      have hne2 : c2 ≠ '_' := by
        intro he
        rw [he] at hc2
        exact absurd hc2 (by decide)
      simp only [if_neg hne2]
      exact hexDigitsUnd_all (c2 :: r2)
        (fun x hx => h x (List.mem_cons_of_mem c hx)) (by simp)

theorem pyInt16Valid_of_hex (s : String) (h : ∀ c ∈ s.data, isHexDig c = true)
    (hne : s.data ≠ []) : pyInt16Valid s = true := by
  have hnw : ∀ c ∈ s.data, pyWsp c = false := fun c hc => hexDig_not_wsp c (h c hc)
  have hstrip : pyStrip s.data = s.data := by
    unfold pyStrip
    rw [dropWhile_all_false _ _ hnw,
      dropWhile_all_false _ _ (fun c hc => hnw c (List.mem_reverse.mp hc))]
    exact List.reverse_reverse _
  simp only [pyInt16Valid, hstrip]
  cases hd : s.data with
  | nil => exact absurd hd hne
  | cons c t =>
    have hc : isHexDig c = true := h c (by rw [hd]; simp)
    have hsign : ¬((c :: t).head? = some '+' ∨ (c :: t).head? = some '-') := by
      simp only [List.head?, Option.some.injEq]
      push_neg
      constructor
      · intro he; rw [he] at hc; exact absurd hc (by decide)
      · intro he; rw [he] at hc; exact absurd hc (by decide)
    rw [if_neg hsign]
    cases t with
    | nil => exact hexDigitsUnd_all [c] (by simpa using hc) (by simp)
    | cons c1 r =>
      have hc1 : isHexDig c1 = true := h c1 (by rw [hd]; simp)
      have hnx : ¬(c = '0' ∧ (c1 = 'x' ∨ c1 = 'X')) := by
        intro hand
        rcases hand.2 with he | he
        all_goals rw [he] at hc1
        all_goals exact absurd hc1 (by decide)
      simp only []
      rw [if_neg hnx]
      refine hexDigitsUnd_all (c :: c1 :: r) ?_ (by simp)
      intro x hx
      exact h x (by rw [hd]; exact hx)

theorem hex_not_prefix (s pre : String) (c : Char)
    (hc : pre.data.head? = some c) (hcx : isHexDig c = false)
    (h : ∀ x ∈ s.data, isHexDig x = true) : pyStartswith s pre = false := by
  cases hx : pyStartswith s pre with
  | false => rfl
  | true =>
    have hh := startswith_head s pre c hc hx
    cases hd : s.data with
    | nil => rw [hd] at hh; simp at hh
    | cons c0 t =>
      rw [hd] at hh
      simp only [List.head?, Option.some.injEq] at hh
      have hc0 := h c0 (by rw [hd]; simp)
      rw [hh] at hc0
      rw [hc0] at hcx
      exact absurd hcx (by simp)

theorem classify_server_inv (t : String)
    (h : classifySpec t = SourceTag.json_server) : _is_config_id t = true := by
  by_cases h1 : t = ""
  · simp [classifySpec, h1] at h
  by_cases h2 : _is_json t = true
  · simp [classifySpec, h1, h2] at h
  by_cases h3 : pyStartswith t "ksf://" = true
  · simp [classifySpec, h1, h2, h3] at h
  by_cases h4 : (pyStartswith t "http:" || pyStartswith t "https:") = true
  · simp [classifySpec, h1, h2, h3, h4] at h
  by_cases h5 : _is_config_id t = true
  · exact h5
  · simp [classifySpec, h1, h2, h3, h4, h5] at h

/-- C3 (counterexample): a 32-character all-hex string need not classify as
`json_server` — 32 ones parse as a JSON number, so the earlier `_is_json`
test already claims them as `json_string`; and changing one character of
an all-hex 32-character string to the non-hex character `x` can yield
`json_server` anyway, because `int(s, 16)` accepts a `0x` prefix. -/
theorem C3_counterexample :
    (∀ c ∈ (String.mk (List.replicate 32 '1')).data, isHexDig c = true) ∧
    (String.mk (List.replicate 32 '1')).length = 32 ∧
    classifySpec (String.mk (List.replicate 32 '1')) = SourceTag.json_string ∧
    classifySpec (String.mk (List.replicate 32 '1')) ≠ SourceTag.json_server ∧
    (∀ c ∈ (String.mk ('0' :: List.replicate 31 '1')).data, isHexDig c = true) ∧
    isHexDig 'x' = false ∧
    (String.mk ('0' :: 'x' :: List.replicate 30 '1')).length = 32 ∧
    classifySpec (String.mk ('0' :: 'x' :: List.replicate 30 '1')) =
      SourceTag.json_server := by decide

/-- C3 (amended): a 32-character all-hex string always satisfies
`_is_config_id`, and classifies as `json_server` unless it already parses
as JSON, in which case it is `json_string`; any string whose length is not
32 is never classified `json_server`. -/
theorem C3_amended (s t : String)
    (h32 : s.length = 32) (hhex : ∀ c ∈ s.data, isHexDig c = true)
    (ht : t.length ≠ 32) :
    _is_config_id s = true ∧
    classifySpec s =
      (if _is_json s then SourceTag.json_string else SourceTag.json_server) ∧
    classifySpec t ≠ SourceTag.json_server := by
  have hne : s.data ≠ [] := by
    intro h0
    have h32d : s.data.length = 32 := h32
    rw [h0] at h32d
    exact absurd h32d (by decide)
  have hcid : _is_config_id s = true :=
    (is_config_id_iff s).mpr ⟨h32, pyInt16Valid_of_hex s hhex hne⟩
  have hsne : s ≠ "" := by
    intro h0
    rw [h0] at h32
    exact absurd h32 (by decide)
  have hk : pyStartswith s "ksf://" = false :=
    hex_not_prefix s "ksf://" 'k' rfl (by decide) hhex
  have hh1 : pyStartswith s "http:" = false :=
    hex_not_prefix s "http:" 'h' rfl (by decide) hhex
  have hh2 : pyStartswith s "https:" = false :=
    hex_not_prefix s "https:" 'h' rfl (by decide) hhex
  refine ⟨hcid, ?_, ?_⟩
  · by_cases hj : _is_json s = true
    · simp [classifySpec, hsne, hj]
    · simp [classifySpec, hsne, hj, hk, hh1, hh2, hcid]
  · intro hct
    have := (is_config_id_iff t).mp (classify_server_inv t hct)
    exact ht this.1

theorem C3_amended_witness :
    _is_config_id (String.mk (List.replicate 32 'a')) = true ∧
    classifySpec (String.mk (List.replicate 32 'a')) =
      (if _is_json (String.mk (List.replicate 32 'a')) then SourceTag.json_string
       else SourceTag.json_server) ∧
    classifySpec "abc" ≠ SourceTag.json_server :=
  C3_amended (String.mk (List.replicate 32 'a')) "abc" (by decide) (by decide)
    (by decide)

/-! ## C7 -/

deriving instance DecidableEq for Except

/-- Shape (b) of the spec data model: an object carrying `chart_map` and
`config` keys. -/
def hasShapeB (v : PyJson) : Bool :=
  match v with
  | .obj o => (o.find "chart_map").isSome && (o.find "config").isSome
  | _ => false

theorem hasShapeB_obj (d : PyJson) (h : hasShapeB d = true) :
    ∃ o : PyObj, d = .obj o := by
  cases d with
  | obj o => exact ⟨o, rfl⟩
  | null => exact absurd h (by simp [hasShapeB])
  | bool b => exact absurd h (by simp [hasShapeB])
  | num l => exact absurd h (by simp [hasShapeB])
  | str s2 => exact absurd h (by simp [hasShapeB])
  | arr a => exact absurd h (by simp [hasShapeB])

/-- On a legacy list, `migrateStage` wraps and always migrates (the absent
version defaults to `"0.1.0"`, below the threshold). -/
theorem migrateStage_arr (env : SpecEnv) (specTxt : String) (a : PyArr) :
    migrateStage env specTxt (.arr a) =
      (_config_adapter env specTxt).map
        (fun c2 => .obj (.cons "chart_map" (.obj .nil) (.cons "config" (.str c2) .nil))) :=
  rfl

theorem migrateStage_shape (env : SpecEnv) (specTxt : String) (v0 d : PyJson)
    (h : migrateStage env specTxt v0 = .ok d) :
    hasShapeB d = true ∨
    (∃ o : PyObj, v0 = .obj o ∧
      (d = .obj o ∨ ∃ c2 : String, d = .obj (o.upsert "config" (.str c2)))) := by
  cases v0 with
  | null => exact absurd h (by simp [migrateStage])
  | bool b => exact absurd h (by simp [migrateStage])
  | num l => exact absurd h (by simp [migrateStage])
  | str s2 => exact absurd h (by simp [migrateStage])
  | arr a =>
    rw [migrateStage_arr] at h
    cases hc : _config_adapter env specTxt with
    | error e => rw [hc] at h; exact absurd h (by simp [Except.map])
    | ok c2 =>
      rw [hc] at h
      simp only [Except.map, Except.ok.injEq] at h
      subst h
      exact Or.inl rfl
  | obj o =>
    simp only [migrateStage] at h
    split at h <;> try exact absurd h (by simp)
    rename_i vs hvs
    split at h
    · exact absurd h (by simp)
    · rename_i sv hsv
      split at h
      · split at h
        · exact absurd h (by simp)
        · rename_i cfg hcfg
          cases hc : _config_adapter env cfg with
          | error e => rw [hc] at h; exact absurd h (by simp [Except.map])
          | ok c2 =>
            rw [hc] at h
            simp only [Except.map, Except.ok.injEq] at h
            subst h
            exact Or.inr ⟨o, rfl, Or.inr ⟨c2, rfl⟩⟩
        · exact absurd h (by simp)
      · simp only [Except.ok.injEq] at h
        subst h
        exact Or.inr ⟨o, rfl, Or.inl rfl⟩

/-- C7 (counterexample): the input `\x7b"version": "0.4.0"\x7d` resolves
cleanly, but the returned object is neither of shape
`\x7bchart_map, config\x7d` nor the empty object `\x7b\x7d`. -/
theorem C7_counterexample :
    get_spec_json plainEnv "\x7b\"version\": \"0.4.0\"\x7d" =
      .ok ((.obj (.cons "version" (.str "0.4.0") .nil), SourceTag.json_string), []) ∧
    hasShapeB (.obj (.cons "version" (.str "0.4.0") .nil)) = false ∧
    PyJson.obj (.cons "version" (.str "0.4.0") .nil) ≠ emptySpecDoc ∧
    PyJson.obj (.cons "version" (.str "0.4.0") .nil) ≠ .obj .nil := by decide

/-- C7 (amended): whenever `get_spec_json` returns, the document is a JSON
object; it has shape `\x7bchart_map, config\x7d` when the fetched text was
empty or a legacy list, but when the fetched text is itself a JSON object
the resolver returns that very object (with `config` rewritten when the
version gate fires), which need not contain `chart_map` or `config`. -/
theorem C7_amended (env : SpecEnv) (s : String)
    (r : (PyJson × SourceTag) × List (String × String))
    (h : get_spec_json env s = .ok r) :
    (∃ o : PyObj, r.1.1 = .obj o) ∧
    (r.1.1 = emptySpecDoc ∨ hasShapeB r.1.1 = true ∨
      ∃ txt o, parseJson txt = some (.obj o) ∧
        (r.1.1 = .obj o ∨ ∃ c2 : String, r.1.1 = .obj (o.upsert "config" (.str c2)))) := by
  cases hsrc : _get_spec_json_from_diff_source env s with
  | error e =>
    simp only [get_spec_json, hsrc, Except.instMonad, Except.bind] at h
    exact absurd h (by simp)
  | ok trip =>
    obtain ⟨specTxt, tag, fs2⟩ := trip
    simp only [get_spec_json, hsrc, Except.instMonad, Except.bind] at h
    by_cases hemp : specTxt = ""
    · rw [if_pos hemp] at h
      simp only [Except.ok.injEq] at h
      subst h
      exact ⟨⟨_, rfl⟩, Or.inl rfl⟩
    · rw [if_neg hemp] at h
      cases hp : parseJson specTxt with
      | none => rw [hp] at h; exact absurd h (by simp)
      | some v0 =>
        rw [hp] at h
        replace h : Except.map (fun d => ((d, tag), fs2))
            (migrateStage env specTxt v0) = .ok r := h
        cases hm : migrateStage env specTxt v0 with
        | error e => rw [hm] at h; exact absurd h (by simp [Except.map])
        | ok d =>
          rw [hm] at h
          simp only [Except.map, Except.ok.injEq] at h
          subst h
          rcases migrateStage_shape env specTxt v0 d hm with hb | ⟨o, hvo, hd⟩
          · exact ⟨hasShapeB_obj d hb, Or.inr (Or.inl hb)⟩
          · refine ⟨?_, Or.inr (Or.inr ⟨specTxt, o, by rw [← hvo]; exact hp, hd⟩)⟩
            rcases hd with rfl | ⟨c2, rfl⟩
            · exact ⟨o, rfl⟩
            · exact ⟨_, rfl⟩

theorem C7_amended_witness :
    (∃ o : PyObj,
      ((PyJson.obj (.cons "chart_map" (.obj .nil) (.cons "config" (.str "[]") .nil)),
        SourceTag.json_string),
       ([] : List (String × String))).1.1 = .obj o) ∧
    (((PyJson.obj (.cons "chart_map" (.obj .nil) (.cons "config" (.str "[]") .nil)),
        SourceTag.json_string),
      ([] : List (String × String))).1.1 = emptySpecDoc ∨
     hasShapeB ((PyJson.obj (.cons "chart_map" (.obj .nil)
        (.cons "config" (.str "[]") .nil)), SourceTag.json_string),
       ([] : List (String × String))).1.1 = true ∨
     ∃ txt o, parseJson txt = some (.obj o) ∧
       (((PyJson.obj (.cons "chart_map" (.obj .nil) (.cons "config" (.str "[]") .nil)),
          SourceTag.json_string), ([] : List (String × String))).1.1 = .obj o ∨
        ∃ c2 : String,
          ((PyJson.obj (.cons "chart_map" (.obj .nil) (.cons "config" (.str "[]") .nil)),
            SourceTag.json_string), ([] : List (String × String))).1.1 =
            .obj (o.upsert "config" (.str c2)))) :=
  C7_amended plainEnv "[]"
    ((PyJson.obj (.cons "chart_map" (.obj .nil) (.cons "config" (.str "[]") .nil)),
      SourceTag.json_string), []) (by decide)

/-! ## C1 -/

/-- On an object, `migrateStage` is the version gate over that object. -/
theorem migrateStage_obj (env : SpecEnv) (specTxt : String) (o : PyObj) :
    migrateStage env specTxt (.obj o) =
      match (objFind o.toList "version").getD (.str "0.1.0") with
      | .str vs =>
        match parseSVer vs with
        | none =>
          .error (.valueError ("invalid version number " ++ apos ++ vs ++ apos))
        | some sv =>
          if svLe sv thresholdVer then
            match objFind o.toList "config" with
            | none => .error (.keyError "config")
            | some (.str cfg) =>
              (_config_adapter env cfg).map
                (fun c2 => .obj (o.upsert "config" (.str c2)))
            | some _ => .error .typeError
          else .ok (.obj o)
      | _ => .error .typeError := rfl

/-- C1: the version gate fires exactly per the spec's semantic-version
ordering: a fetched object whose declared (or defaulted) version is at or
below `0.3.17a4` in that ordering has its `config` rewritten through
`_config_adapter`; one above it passes through unmodified.  The boundary
versions behave as the spec prescribes: `0.3.17a4` itself and the default
`0.1.0` trigger, `0.3.18` does not. -/
theorem C1_version_gate (env : SpecEnv)
    (s1 t1 : String) (tag1 : SourceTag) (fs1 : List (String × String))
    (o1 : PyObj) (vs1 : String) (v1 : SVer) (cfg1 c1 : String)
    (h1src : _get_spec_json_from_diff_source env s1 = .ok (t1, tag1, fs1))
    (h1ne : t1 ≠ "")
    (h1p : parseJson t1 = some (.obj o1))
    (h1v : (objFind o1.toList "version").getD (.str "0.1.0") = .str vs1)
    (h1sv : parseSVer vs1 = some v1)
    (h1le : specVersionLe v1 thresholdVer = true)
    (h1cfg : objFind o1.toList "config" = some (.str cfg1))
    (h1ad : _config_adapter env cfg1 = .ok c1)
    (s2 t2 : String) (tag2 : SourceTag) (fs2 : List (String × String))
    (o2 : PyObj) (vs2 : String) (v2 : SVer)
    (h2src : _get_spec_json_from_diff_source env s2 = .ok (t2, tag2, fs2))
    (h2ne : t2 ≠ "")
    (h2p : parseJson t2 = some (.obj o2))
    (h2v : (objFind o2.toList "version").getD (.str "0.1.0") = .str vs2)
    (h2sv : parseSVer vs2 = some v2)
    (h2gt : specVersionLe v2 thresholdVer = false) :
    get_spec_json env s1 = .ok ((.obj (o1.upsert "config" (.str c1)), tag1), fs1) ∧
    get_spec_json env s2 = .ok ((.obj o2, tag2), fs2) ∧
    parseSVer "0.3.17a4" = some thresholdVer ∧
    specVersionLe thresholdVer thresholdVer = true ∧
    (∃ v318, parseSVer "0.3.18" = some v318 ∧
      specVersionLe v318 thresholdVer = false) ∧
    (∃ v010, parseSVer "0.1.0" = some v010 ∧
      specVersionLe v010 thresholdVer = true) := by
  have hm1 : migrateStage env t1 (.obj o1) =
      .ok (.obj (o1.upsert "config" (.str c1))) := by
    rw [migrateStage_obj, h1v]
    simp only [h1sv]
    rw [svLe_eq_specVersionLe, h1le]
    simp only [if_true]
    rw [h1cfg]
    simp [h1ad, Except.map]
  have hm2 : migrateStage env t2 (.obj o2) = .ok (.obj o2) := by
    rw [migrateStage_obj, h2v]
    simp only [h2sv]
    rw [svLe_eq_specVersionLe, h2gt]
    simp
  refine ⟨?_, ?_, by decide, by decide, ⟨⟨0, 3, 18, none⟩, by decide, by decide⟩,
    ⟨⟨0, 1, 0, none⟩, by decide, by decide⟩⟩
  · simp [get_spec_json, h1src, Except.instMonad, Except.bind, h1ne, h1p, hm1,
      Except.map]
  · simp [get_spec_json, h2src, Except.instMonad, Except.bind, h2ne, h2p, hm2,
      Except.map]

theorem C1_witness :
    get_spec_json plainEnv "\x7b\"version\": \"0.3.17a4\", \"config\": \"[]\"\x7d" =
      .ok ((.obj ((PyObj.cons "version" (.str "0.3.17a4")
          (.cons "config" (.str "[]") .nil)).upsert "config" (.str "[]")),
        SourceTag.json_string), []) ∧
    get_spec_json plainEnv "\x7b\"version\": \"0.3.18\"\x7d" =
      .ok ((.obj (PyObj.cons "version" (.str "0.3.18") .nil),
        SourceTag.json_string), []) ∧
    parseSVer "0.3.17a4" = some thresholdVer ∧
    specVersionLe thresholdVer thresholdVer = true ∧
    (∃ v318, parseSVer "0.3.18" = some v318 ∧
      specVersionLe v318 thresholdVer = false) ∧
    (∃ v010, parseSVer "0.1.0" = some v010 ∧
      specVersionLe v010 thresholdVer = true) :=
  C1_version_gate plainEnv
    "\x7b\"version\": \"0.3.17a4\", \"config\": \"[]\"\x7d"
    "\x7b\"version\": \"0.3.17a4\", \"config\": \"[]\"\x7d"
    SourceTag.json_string []
    (PyObj.cons "version" (.str "0.3.17a4") (.cons "config" (.str "[]") .nil))
    "0.3.17a4" thresholdVer "[]" "[]"
    (by decide) (by decide) (by decide) (by decide) (by decide) (by decide)
    (by decide) (by decide)
    "\x7b\"version\": \"0.3.18\"\x7d" "\x7b\"version\": \"0.3.18\"\x7d"
    SourceTag.json_string []
    (PyObj.cons "version" (.str "0.3.18") .nil) "0.3.18" ⟨0, 3, 18, none⟩
    (by decide) (by decide) (by decide) (by decide) (by decide) (by decide)

/-! ## C2 -/

def c2cfg : String :=
  "[\x7b\"encodings\": \x7b\"dimensions\": [\x7b\"fid\": \"aa\", \"name\": \"bb\"\x7d], \"measures\": []\x7d\x7d, \x7b\"encodings\": \x7b\"dimensions\": [], \"measures\": []\x7d, \"note\": \"aa\"\x7d]"

def c2out : String :=
  "[\x7b\"encodings\": \x7b\"dimensions\": [\x7b\"fid\": \"bb\", \"name\": \"bb\"\x7d], \"measures\": []\x7d\x7d, \x7b\"encodings\": \x7b\"dimensions\": [], \"measures\": []\x7d, \"note\": \"bb\"\x7d]"

/-- The `note` value of the second chart item of a serialized config. -/
def noteOfSecond (s : String) : Option PyJson :=
  match parseJson s with
  | some (.arr (.cons _ (.cons (.obj o2) .nil))) => objFind o2.toList "note"
  | _ => none

set_option maxRecDepth 16384 in
/-- C2 (counterexample): with the identity sanitizer, migrating a config
whose first chart item maps fid `aa` to name `bb` rewrites the literal
`aa` inside the SECOND chart item too — `config.replace(old, new)` acts on
the whole serialized config, not on the item's own serialized JSON. -/
theorem C2_counterexample :
    _config_adapter plainEnv c2cfg = .ok c2out ∧
    noteOfSecond c2cfg = some (.str "aa") ∧
    noteOfSecond c2out = some (.str "bb") := by
  refine ⟨by decide, by decide, by decide⟩

/-- A dimensions/measures entry with fid `f`, display name `n` and a
`computed` flag. -/
def mkField (f n : String) (c : Bool) : PyObj :=
  .cons "fid" (.str f) (.cons "name" (.str n) (.cons "computed" (.bool c) .nil))

def fieldObjOf (t : String × String × Bool) : PyJson :=
  .obj (mkField t.1 t.2.1 t.2.2)

/-- A chart item whose encodings hold the given dimensions and measures. -/
def mkItem (dl ml : List (String × String × Bool)) : PyObj :=
  .cons "encodings" (.obj (.cons "dimensions"
    (.arr (PyArr.ofList (dl.map fieldObjOf)))
    (.cons "measures" (.arr (PyArr.ofList (ml.map fieldObjOf))) .nil))) .nil

/-- The non-computed, non-sentinel (fid, name) pairs, in order. -/
def keptOf (l : List (String × String × Bool)) : List (String × String) :=
  (l.filter (fun t =>
    !t.2.2 && !(t.1 = "gw_mea_val_fid") && !(t.1 = "gw_mea_key_fid"))).map
    (fun t => (t.1, t.2.1))

theorem keptOf_cons_kept (t : String × String × Bool)
    (l : List (String × String × Bool))
    (h : (!t.2.2 && !(t.1 = "gw_mea_val_fid") && !(t.1 = "gw_mea_key_fid")) = true) :
    keptOf (t :: l) = (t.1, t.2.1) :: keptOf l := by
  simp [keptOf, List.filter_cons, h]

theorem keptOf_cons_skip (t : String × String × Bool)
    (l : List (String × String × Bool))
    (h : (!t.2.2 && !(t.1 = "gw_mea_val_fid") && !(t.1 = "gw_mea_key_fid")) = false) :
    keptOf (t :: l) = keptOf l := by
  simp [keptOf, List.filter_cons, h]

theorem kept_cond (c : Bool) (f : String) :
    (¬pyTruthy ((some (PyJson.bool c)).getD (.bool false)) ∧
      ¬(some (PyJson.str f) = some (.str "gw_mea_val_fid") ∨
        some (PyJson.str f) = some (.str "gw_mea_key_fid"))) ↔
    (!c && !(f = "gw_mea_val_fid") && !(f = "gw_mea_key_fid")) = true := by
  simp [pyTruthy]
  tauto

theorem fidMapUpsert_append (m : List (PyJson × PyJson)) (k v : PyJson)
    (h : ∀ p ∈ m, p.1 ≠ k) : fidMapUpsert m k v = m ++ [(k, v)] := by
  induction m with
  | nil => rfl
  | cons p m ih =>
    have hp : p.1 ≠ k := h p (by simp)
    obtain ⟨p1, p2⟩ := p
    simp only [fidMapUpsert, if_neg hp, List.cons_append, List.cons.injEq, true_and]
    exact ih (fun q hq => h q (by simp [hq]))

theorem buildMap_mk : ∀ (l : List (String × String × Bool))
    (m : List (PyJson × PyJson)),
    (∀ p ∈ m, ∀ t ∈ keptOf l, p.1 ≠ PyJson.str t.1) →
    ((keptOf l).map Prod.fst).Nodup →
    buildFidNameMap (l.map fieldObjOf) m =
      .ok (m ++ (keptOf l).map (fun p => (PyJson.str p.1, PyJson.str p.2)))
  | [], m, _, _ => by simp [keptOf, buildFidNameMap]
  | ⟨f, n, c⟩ :: l, m, hdisj, hnd => by
    have hstep : fidNameMapStep m (fieldObjOf (f, n, c)) =
        (if ¬pyTruthy ((some (PyJson.bool c)).getD (.bool false)) ∧
            ¬(some (PyJson.str f) = some (.str "gw_mea_val_fid") ∨
              some (PyJson.str f) = some (.str "gw_mea_key_fid")) then
          Except.ok (fidMapUpsert m (.str f) (.str n))
        else Except.ok m) := rfl
    have hbuild : buildFidNameMap ((⟨f, n, c⟩ :: l).map fieldObjOf) m =
        Except.bind (fidNameMapStep m (fieldObjOf (f, n, c)))
          (fun m2 => buildFidNameMap (l.map fieldObjOf) m2) := rfl
    by_cases hkb : (!c && !(f = "gw_mea_val_fid") && !(f = "gw_mea_key_fid")) = true
    · have hkept : keptOf (⟨f, n, c⟩ :: l) = (f, n) :: keptOf l :=
        keptOf_cons_kept ⟨f, n, c⟩ l hkb
      have hfresh : ∀ p ∈ m, p.1 ≠ PyJson.str f := by
        intro p hp
        exact hdisj p hp (f, n) (by rw [hkept]; simp)
      have hfnotin : f ∉ (keptOf l).map Prod.fst := by
        rw [hkept] at hnd
        simp only [List.map_cons] at hnd
        exact (List.nodup_cons.mp hnd).1
      rw [hbuild, hstep, if_pos ((kept_cond c f).mpr hkb),
        fidMapUpsert_append m (.str f) (.str n) hfresh]
      have hrec := buildMap_mk l (m ++ [(PyJson.str f, PyJson.str n)])
        (by
          intro p hp t2 ht2
          rcases List.mem_append.mp hp with h1 | h2
          · exact hdisj p h1 t2 (by rw [hkept]; exact List.mem_cons_of_mem _ ht2)
          · have hpf : p = (PyJson.str f, PyJson.str n) := by simpa using h2
            subst hpf
            simp only [ne_eq, PyJson.str.injEq]
            intro he
            exact hfnotin (he ▸ List.mem_map_of_mem Prod.fst ht2))
        (by
          rw [hkept] at hnd
          simp only [List.map_cons] at hnd
          exact (List.nodup_cons.mp hnd).2)
      calc Except.bind (Except.ok (m ++ [(PyJson.str f, PyJson.str n)]))
            (fun m2 => buildFidNameMap (l.map fieldObjOf) m2)
          = buildFidNameMap (l.map fieldObjOf) (m ++ [(PyJson.str f, PyJson.str n)]) := rfl
        _ = .ok ((m ++ [(PyJson.str f, PyJson.str n)]) ++
              (keptOf l).map (fun p => (PyJson.str p.1, PyJson.str p.2))) := hrec
        _ = .ok (m ++ (keptOf (⟨f, n, c⟩ :: l)).map
              (fun p => (PyJson.str p.1, PyJson.str p.2))) := by
            rw [hkept]
            simp
    · have hkept : keptOf (⟨f, n, c⟩ :: l) = keptOf l :=
        keptOf_cons_skip ⟨f, n, c⟩ l (by simpa using hkb)
      have hnp : ¬(¬pyTruthy ((some (PyJson.bool c)).getD (.bool false)) ∧
          ¬(some (PyJson.str f) = some (.str "gw_mea_val_fid") ∨
            some (PyJson.str f) = some (.str "gw_mea_key_fid"))) :=
        fun hP => hkb ((kept_cond c f).mp hP)
      rw [hbuild, hstep, if_neg hnp]
      have hrec := buildMap_mk l m
        (by
          intro p hp t2 ht2
          exact hdisj p hp t2 (by rw [hkept]; exact ht2))
        (by rw [hkept] at hnd; exact hnd)
      calc Except.bind (Except.ok m)
            (fun m2 => buildFidNameMap (l.map fieldObjOf) m2)
          = buildFidNameMap (l.map fieldObjOf) m := rfl
        _ = .ok (m ++ (keptOf l).map (fun p => (PyJson.str p.1, PyJson.str p.2))) := hrec
        _ = .ok (m ++ (keptOf (⟨f, n, c⟩ :: l)).map
              (fun p => (PyJson.str p.1, PyJson.str p.2))) := by rw [hkept]

theorem asStrList_map_str (g : (String × String) → String) :
    ∀ (l : List (String × String)),
    asStrList (l.map (fun p => PyJson.str (g p))) = some (l.map g)
  | [] => rfl
  | p :: l => by
    simp [asStrList, asStrList_map_str g l]

/-- C2 (amended): for a chart item whose dimensions and measures are field
objects with string fids and names, the old-to-new map is built exactly
from the non-computed, non-sentinel fields in order, the display names go
through the sanitizer, and the zipped replacements are folded with
`config.replace` over the ENTIRE running config string (`replaceFold`) —
not merely over that chart item's own serialized JSON. -/
theorem C2_amended (env : SpecEnv) (config : String)
    (dl ml : List (String × String × Bool))
    (hnodup : ((keptOf (dl ++ ml)).map Prod.fst).Nodup) :
    adaptChartItem env config (.obj (mkItem dl ml)) =
      replaceFold config
        (((keptOf (dl ++ ml)).map (fun p => PyJson.str p.1)).zip
          (env.renameCols ((keptOf (dl ++ ml)).map Prod.snd))) := by
  have hstep : adaptChartItem env config (.obj (mkItem dl ml)) =
      Except.bind (buildFidNameMap ((PyArr.ofList (dl.map fieldObjOf)).toList ++
          (PyArr.ofList (ml.map fieldObjOf)).toList) [])
        (fun m => match asStrList (m.map Prod.snd) with
          | none => .error .typeError
          | some names =>
            replaceFold config ((m.map Prod.fst).zip (env.renameCols names))) := rfl
  have hsnd : (((keptOf (dl ++ ml)).map
        (fun p => (PyJson.str p.1, PyJson.str p.2))).map Prod.snd) =
      (keptOf (dl ++ ml)).map (fun p => PyJson.str p.2) := by
    simp
  have hfst : (((keptOf (dl ++ ml)).map
        (fun p => (PyJson.str p.1, PyJson.str p.2))).map Prod.fst) =
      (keptOf (dl ++ ml)).map (fun p => PyJson.str p.1) := by
    simp
  have hstr : asStrList ((keptOf (dl ++ ml)).map (fun p => PyJson.str p.2)) =
      some ((keptOf (dl ++ ml)).map Prod.snd) :=
    asStrList_map_str Prod.snd (keptOf (dl ++ ml))
  rw [hstep, arrToList_ofList, arrToList_ofList, ← List.map_append,
    buildMap_mk (dl ++ ml) [] (by simp) hnodup]
  simp only [List.nil_append, Except.bind, hsnd, hstr, hfst]

theorem C2_amended_witness :
    adaptChartItem plainEnv c2cfg (.obj (mkItem [("aa", "bb", false)] [])) =
      replaceFold c2cfg
        (((keptOf ([("aa", "bb", false)] ++ [])).map (fun p => PyJson.str p.1)).zip
          (plainEnv.renameCols
            ((keptOf ([("aa", "bb", false)] ++ [])).map Prod.snd))) :=
  C2_amended plainEnv c2cfg [("aa", "bb", false)] [] (by decide)

/-! ## C5 -/

/-- C5: reconciling a chart item leaves every existing field reference in
place, unchanged and in order — the stored `dimensions` and `measures`
lists of the result are literally the old lists with the new dimension and
measure fields appended at the end. -/
theorem C5_additive (env : SpecEnv) (all_fields : List PyObj)
    (io eo : PyObj) (dl ml : PyArr) (n : Nat)
    (fset nd nm : List PyJson) (n2 : Nat)
    (henc : io.find "encodings" = some (.obj eo))
    (hd : eo.find "dimensions" = some (.arr dl))
    (hm : eo.find "measures" = some (.arr ml))
    (hfs : fieldSet (dl.toList ++ ml.toList) = .ok fset)
    (hsp : splitNewFields env fset all_fields n = .ok (nd, nm, n2)) :
    ∃ eo2 : PyObj,
      fillChartItem env all_fields (.obj io) n =
        .ok (.obj (io.upsert "encodings" (.obj eo2)), n2) ∧
      eo2.find "dimensions" = some (.arr (PyArr.ofList (dl.toList ++ nd))) ∧
      eo2.find "measures" = some (.arr (PyArr.ofList (ml.toList ++ nm))) ∧
      dl.toList <+: dl.toList ++ nd ∧ ml.toList <+: ml.toList ++ nm := by
  have h1 : pySubscript (.obj io) "encodings" = .ok (.obj eo) := by
    simp [pySubscript, henc]
  have h2 : pySubscript (.obj eo) "dimensions" = .ok (.arr dl) := by
    simp [pySubscript, hd]
  have h3 : pySubscript (.obj eo) "measures" = .ok (.arr ml) := by
    simp [pySubscript, hm]
  refine ⟨(eo.upsert "dimensions" (.arr (PyArr.ofList (dl.toList ++ nd)))).upsert
      "measures" (.arr (PyArr.ofList (ml.toList ++ nm))), ?_, ?_, ?_,
    ⟨nd, rfl⟩, ⟨nm, rfl⟩⟩
  · simp [fillChartItem, h1, h2, h3, pyConcatIter, hfs, hsp, Except.instMonad,
      Except.bind]
  · rw [pfind_upsert_other _ _ _ _ (by decide)]
    exact pfind_upsert_same _ _ _
  · exact pfind_upsert_same _ _ _

def c5field : PyObj :=
  .cons "fid" (.str "cc") (.cons "name" (.str "dd")
    (.cons "analyticType" (.str "measure") .nil))

theorem C5_witness :
    ∃ eo2 : PyObj,
      fillChartItem plainEnv [c5field] (.obj (mkItem [("aa", "bb", false)] [])) 0 =
        .ok (.obj ((mkItem [("aa", "bb", false)] []).upsert "encodings" (.obj eo2)), 1) ∧
      eo2.find "dimensions" = some (.arr (PyArr.ofList
        ((PyArr.ofList ([("aa", "bb", false)].map fieldObjOf)).toList ++ []))) ∧
      eo2.find "measures" = some (.arr (PyArr.ofList
        ((PyArr.ofList ([] : List PyJson)).toList ++
          [.obj ((c5field.upsert "basename" (.str "dd")).upsert "dragId"
            (.str ("GW_" ++ plainEnv.randSeq 0)))]))) ∧
      (PyArr.ofList ([("aa", "bb", false)].map fieldObjOf)).toList <+:
        (PyArr.ofList ([("aa", "bb", false)].map fieldObjOf)).toList ++ [] ∧
      (PyArr.ofList ([] : List PyJson)).toList <+:
        (PyArr.ofList ([] : List PyJson)).toList ++
          [.obj ((c5field.upsert "basename" (.str "dd")).upsert "dragId"
            (.str ("GW_" ++ plainEnv.randSeq 0)))] :=
  C5_additive plainEnv [c5field] (mkItem [("aa", "bb", false)] [])
    (.cons "dimensions" (.arr (PyArr.ofList ([("aa", "bb", false)].map fieldObjOf)))
      (.cons "measures" (.arr (PyArr.ofList ([] : List PyJson))) .nil))
    (PyArr.ofList ([("aa", "bb", false)].map fieldObjOf))
    (PyArr.ofList ([] : List PyJson)) 0 [.str "aa"] []
    [.obj ((c5field.upsert "basename" (.str "dd")).upsert "dragId"
      (.str ("GW_" ++ plainEnv.randSeq 0)))] 1
    (by decide) (by decide) (by decide) (by decide) (by decide)

/-! ## C10 -/

/-- C10: during reconciliation a missing dataset field is routed by the
test `analyticType == "dimension"`: a field whose `analyticType` is any
other value — `"measure"` or not — is appended to the measures list, and
only the exact string `"dimension"` reaches the dimensions list. -/
theorem C10_route_by_dimension (env : SpecEnv) (fset : List PyJson)
    (f1 f2 : PyObj) (rest1 rest2 : List PyObj) (n1 n2 : Nat)
    (fid1 name1 aty1 fid2 name2 : PyJson)
    (nd1 nm1 : List PyJson) (k1 : Nat) (nd2 nm2 : List PyJson) (k2 : Nat)
    (h1fid : f1.find "fid" = some fid1) (h1hash : pyHashable fid1 = true)
    (h1new : fset.contains fid1 = false)
    (h1name : f1.find "name" = some name1)
    (h1aty : f1.find "analyticType" = some aty1)
    (h1nd : aty1 ≠ .str "dimension")
    (h1rest : splitNewFields env fset rest1 (n1 + 1) = .ok (nd1, nm1, k1))
    (h2fid : f2.find "fid" = some fid2) (h2hash : pyHashable fid2 = true)
    (h2new : fset.contains fid2 = false)
    (h2name : f2.find "name" = some name2)
    (h2aty : f2.find "analyticType" = some (.str "dimension"))
    (h2rest : splitNewFields env fset rest2 (n2 + 1) = .ok (nd2, nm2, k2)) :
    splitNewFields env fset (f1 :: rest1) n1 =
      .ok (nd1, .obj ((f1.upsert "basename" name1).upsert "dragId"
        (.str ("GW_" ++ env.randSeq n1))) :: nm1, k1) ∧
    splitNewFields env fset (f2 :: rest2) n2 =
      .ok (.obj ((f2.upsert "basename" name2).upsert "dragId"
        (.str ("GW_" ++ env.randSeq n2))) :: nd2, nm2, k2) := by
  have hmem1 : fid1 ∉ fset := by simpa using h1new
  have hmem2 : fid2 ∉ fset := by simpa using h2new
  constructor
  · simp [splitNewFields, pySubscript, h1fid, h1hash, hmem1, h1name, h1aty,
      h1rest, h1nd, Except.instMonad, Except.bind]
  · simp [splitNewFields, pySubscript, h2fid, h2hash, hmem2, h2name, h2aty,
      h2rest, Except.instMonad, Except.bind]

def c10weird : PyObj :=
  .cons "fid" (.str "ee") (.cons "name" (.str "ff")
    (.cons "analyticType" (.num "1") .nil))

def c10dim : PyObj :=
  .cons "fid" (.str "gg") (.cons "name" (.str "hh")
    (.cons "analyticType" (.str "dimension") .nil))

theorem C10_witness :
    splitNewFields plainEnv [] [c10weird] 0 =
      .ok ([], .obj ((c10weird.upsert "basename" (.str "ff")).upsert "dragId"
        (.str ("GW_" ++ plainEnv.randSeq 0))) :: [], 1) ∧
    splitNewFields plainEnv [] [c10dim] 0 =
      .ok (.obj ((c10dim.upsert "basename" (.str "hh")).upsert "dragId"
        (.str ("GW_" ++ plainEnv.randSeq 0))) :: [], [], 1) :=
  C10_route_by_dimension plainEnv [] c10weird c10dim [] [] 0 0
    (.str "ee") (.str "ff") (.num "1") (.str "gg") (.str "hh") [] [] 1 [] [] 1
    (by decide) (by decide) (by decide) (by decide) (by decide) (by decide)
    (by decide) (by decide) (by decide) (by decide) (by decide) (by decide)
    (by decide)

/-! ## C6: lemmas -/

theorem pySubscript_ok_inv (v : PyJson) (k : String) (w : PyJson)
    (h : pySubscript v k = .ok w) :
    ∃ o : PyObj, v = .obj o ∧ o.find k = some w := by
  cases v with
  | obj o =>
    refine ⟨o, rfl, ?_⟩
    simp only [pySubscript] at h
    cases hf : o.find k with
    | none => rw [hf] at h; exact absurd h (by simp)
    | some w2 => rw [hf] at h; simpa using h
  | null => exact absurd h (by simp [pySubscript])
  | bool b => exact absurd h (by simp [pySubscript])
  | num l => exact absurd h (by simp [pySubscript])
  | str s => exact absurd h (by simp [pySubscript])
  | arr a => exact absurd h (by simp [pySubscript])

theorem fieldSet_ok_elems : ∀ (l : List PyJson) (s : List PyJson),
    fieldSet l = .ok s →
    ∀ x ∈ l, ∃ o : PyObj, x = .obj o ∧ ∃ fid, o.find "fid" = some fid ∧
      pyHashable fid = true ∧ fid ∈ s
  | [], s, _, x, hx => absurd hx (by simp)
  | x0 :: l, s, h, x, hx => by
    replace h : Except.bind (pySubscript x0 "fid") (fun fid =>
        if pyHashable fid then
          Except.bind (fieldSet l) (fun s2 => Except.ok (fid :: s2))
        else .error .typeError) = .ok s := h
    cases hsub : pySubscript x0 "fid" with
    | error e => rw [hsub] at h; exact absurd h (by simp [Except.bind])
    | ok fid0 =>
      rw [hsub] at h
      by_cases hh : pyHashable fid0 = true
      · replace h : (if pyHashable fid0 then
            Except.bind (fieldSet l) (fun s2 => Except.ok (fid0 :: s2))
          else .error .typeError) = .ok s := h
        rw [if_pos hh] at h
        cases hfs : fieldSet l with
        | error e => rw [hfs] at h; exact absurd h (by simp [Except.bind])
        | ok s2 =>
          rw [hfs] at h
          replace h : Except.ok (fid0 :: s2) = Except.ok s := h
          simp only [Except.ok.injEq] at h
          subst h
          rcases List.mem_cons.mp hx with rfl | hx2
          · obtain ⟨o, rfl, hfind⟩ := pySubscript_ok_inv x "fid" fid0 hsub
            exact ⟨o, rfl, fid0, hfind, hh, by simp⟩
          · obtain ⟨o, rfl, fid, hfind, hhash, hmem⟩ :=
              fieldSet_ok_elems l s2 hfs x hx2
            exact ⟨o, rfl, fid, hfind, hhash, by simp [hmem]⟩
      · replace h : (if pyHashable fid0 then
            Except.bind (fieldSet l) (fun s2 => Except.ok (fid0 :: s2))
          else .error .typeError) = .ok s := h
        rw [if_neg hh] at h
        exact absurd h (by simp)

theorem fieldSet_eq : ∀ (l : List PyJson),
    (∀ x ∈ l, ∃ o : PyObj, x = .obj o ∧ ∃ fid, o.find "fid" = some fid ∧
      pyHashable fid = true) →
    ∃ s, fieldSet l = .ok s ∧
      ∀ fid, fid ∈ s ↔ ∃ o : PyObj, PyJson.obj o ∈ l ∧ o.find "fid" = some fid
  | [], _ => ⟨[], rfl, by simp⟩
  | x0 :: l, h => by
    obtain ⟨o0, he0, fid0, hfind0, hhash0⟩ := h x0 (by simp)
    obtain ⟨s2, hs2, hmem2⟩ := fieldSet_eq l (fun x hx => h x (by simp [hx]))
    refine ⟨fid0 :: s2, ?_, ?_⟩
    · have hsub : pySubscript x0 "fid" = .ok fid0 := by
        rw [he0]; simp [pySubscript, hfind0]
      calc fieldSet (x0 :: l)
          = Except.bind (pySubscript x0 "fid") (fun fid =>
              if pyHashable fid then
                Except.bind (fieldSet l) (fun s3 => Except.ok (fid :: s3))
              else .error .typeError) := rfl
        _ = .ok (fid0 :: s2) := by
            rw [hsub]
            simp [Except.bind, hhash0, hs2]
    · intro fid
      constructor
      · intro hf
        rcases List.mem_cons.mp hf with rfl | hf2
        · exact ⟨o0, by rw [← he0]; simp, hfind0⟩
        · obtain ⟨o, ho, hfo⟩ := (hmem2 fid).mp hf2
          exact ⟨o, by simp [ho], hfo⟩
      · rintro ⟨o, ho, hfo⟩
        rcases List.mem_cons.mp ho with heq | ho2
        · rw [he0] at heq
          obtain rfl : o = o0 := by simpa using heq
          rw [hfind0] at hfo
          have : fid0 = fid := by simpa using hfo
          subst this
          simp
        · exact List.mem_cons_of_mem _ ((hmem2 fid).mpr ⟨o, ho2, hfo⟩)

theorem splitNewFields_skip_all (env : SpecEnv) (fset : List PyJson) :
    ∀ (fs : List PyObj) (n : Nat),
    (∀ f ∈ fs, ∃ fid, f.find "fid" = some fid ∧ pyHashable fid = true ∧
      fid ∈ fset) →
    splitNewFields env fset fs n = .ok ([], [], n)
  | [], _, _ => rfl
  | f :: fs, n, h => by
    obtain ⟨fid, hfind, hhash, hmem⟩ := h f (by simp)
    have hsub : pySubscript (.obj f) "fid" = .ok fid := by
      simp [pySubscript, hfind]
    have hcont : fset.contains fid = true := by simpa using hmem
    simp only [splitNewFields, hsub, Except.instMonad, Except.bind, hhash, hcont]
    simp only [Bool.not_true, Bool.false_eq_true, if_false, if_true]
    exact splitNewFields_skip_all env fset fs n
      (fun g hg => h g (List.mem_cons_of_mem f hg))

theorem splitNewFields_props (env : SpecEnv) (fset : List PyJson) :
    ∀ (fs : List PyObj) (n : Nat) (nd nm : List PyJson) (n2 : Nat),
    splitNewFields env fset fs n = .ok (nd, nm, n2) →
    (∀ f ∈ fs, wfV (.obj f) = true) →
    (∀ f ∈ fs, ∃ fid, f.find "fid" = some fid ∧ pyHashable fid = true ∧
      (fid ∈ fset ∨ ∃ o : PyObj, (PyJson.obj o ∈ nd ∨ PyJson.obj o ∈ nm) ∧
        o.find "fid" = some fid)) ∧
    (∀ x, x ∈ nd ∨ x ∈ nm → wfV x = true ∧
      ∃ o : PyObj, x = .obj o ∧ ∃ fid, o.find "fid" = some fid ∧
        pyHashable fid = true)
  | [], n, nd, nm, n2, h, _ => by
    replace h : Except.ok (([] : List PyJson), ([] : List PyJson), n) =
        .ok (nd, nm, n2) := h
    simp only [Except.ok.injEq, Prod.mk.injEq] at h
    obtain ⟨h1, h2, h3⟩ := h
    subst h1
    subst h2
    exact ⟨by simp, by simp⟩
  | f :: fs, n, nd, nm, n2, h, hwf => by
    simp only [splitNewFields, Except.instMonad, Except.bind] at h
    split at h
    · exact absurd h (by simp)
    rename_i fid hsub
    have hfind : f.find "fid" = some fid := by
      obtain ⟨o, ho, hf2⟩ := pySubscript_ok_inv (.obj f) "fid" fid hsub
      obtain rfl : f = o := by simpa using ho
      exact hf2
    split at h
    · exact absurd h (by simp)
    rename_i hhan
    have hha : pyHashable fid = true := not_not.mp hhan
    split at h
    · rename_i hcont
      obtain ⟨ih1, ih2⟩ := splitNewFields_props env fset fs n nd nm n2 h
        (fun g hg => hwf g (List.mem_cons_of_mem f hg))
      refine ⟨?_, ih2⟩
      intro g hg
      rcases List.mem_cons.mp hg with rfl | hg2
      · exact ⟨fid, hfind, hha, Or.inl (by simpa using hcont)⟩
      · exact ih1 g hg2
    · rename_i hcont
      split at h
      · exact absurd h (by simp)
      rename_i name hname
      have hnamefind : f.find "name" = some name := by
        obtain ⟨o, ho, hf2⟩ := pySubscript_ok_inv (.obj f) "name" name hname
        obtain rfl : f = o := by simpa using ho
        exact hf2
      split at h
      · exact absurd h (by simp)
      rename_i aty haty
      split at h
      · exact absurd h (by simp)
      rename_i p hp
      obtain ⟨pd, pm, pk⟩ := p
      obtain ⟨ih1, ih2⟩ := splitNewFields_props env fset fs (n + 1) pd pm pk hp
        (fun g hg => hwf g (List.mem_cons_of_mem f hg))
      have hwff : wfV (.obj f) = true := hwf f (by simp)
      have hgwfind : ((f.upsert "basename" name).upsert "dragId"
          (.str ("GW_" ++ env.randSeq n))).find "fid" = some fid := by
        rw [pfind_upsert_other _ _ _ _ (by decide),
          pfind_upsert_other _ _ _ _ (by decide)]
        exact hfind
      have hwfgw : wfV (.obj ((f.upsert "basename" name).upsert "dragId"
          (.str ("GW_" ++ env.randSeq n)))) = true := by
        apply wfObj_upsert
        · rfl
        · apply wfObj_upsert
          · have hwfo : wfO f = true := by
              have h2 := hwff
              simp only [wfV, Bool.and_eq_true] at h2
              exact h2.2
            exact wfO_find f "name" name hwfo hnamefind
          · exact hwff
      split at h
      · rename_i hdim
        simp only [Except.ok.injEq, Prod.mk.injEq] at h
        obtain ⟨h1, h2, h3⟩ := h
        subst h1
        subst h2
        constructor
        · intro g hg
          rcases List.mem_cons.mp hg with rfl | hg2
          · exact ⟨fid, hfind, hha,
              Or.inr ⟨_, Or.inl (by simp), hgwfind⟩⟩
          · obtain ⟨fid2, hf2, hh2, hor⟩ := ih1 g hg2
            refine ⟨fid2, hf2, hh2, ?_⟩
            rcases hor with hin | ⟨o2, ho2, hfo2⟩
            · exact Or.inl hin
            · refine Or.inr ⟨o2, ?_, hfo2⟩
              rcases ho2 with h' | h'
              · exact Or.inl (by simp [h'])
              · exact Or.inr h'
        · intro x hx
          rcases hx with hx1 | hx2
          · rcases List.mem_cons.mp hx1 with rfl | hx3
            · exact ⟨hwfgw, _, rfl, fid, hgwfind, hha⟩
            · exact ih2 x (Or.inl hx3)
          · exact ih2 x (Or.inr hx2)
      · rename_i hdim
        simp only [Except.ok.injEq, Prod.mk.injEq] at h
        obtain ⟨h1, h2, h3⟩ := h
        subst h1
        subst h2
        constructor
        · intro g hg
          rcases List.mem_cons.mp hg with rfl | hg2
          · exact ⟨fid, hfind, hha,
              Or.inr ⟨_, Or.inr (by simp), hgwfind⟩⟩
          · obtain ⟨fid2, hf2, hh2, hor⟩ := ih1 g hg2
            refine ⟨fid2, hf2, hh2, ?_⟩
            rcases hor with hin | ⟨o2, ho2, hfo2⟩
            · exact Or.inl hin
            · refine Or.inr ⟨o2, ?_, hfo2⟩
              rcases ho2 with h' | h'
              · exact Or.inl h'
              · exact Or.inr (by simp [h'])
        · intro x hx
          rcases hx with hx1 | hx2
          · exact ih2 x (Or.inl hx1)
          · rcases List.mem_cons.mp hx2 with rfl | hx3
            · exact ⟨hwfgw, _, rfl, fid, hgwfind, hha⟩
            · exact ih2 x (Or.inr hx3)

theorem fillChartItem_inv (env : SpecEnv) (all_fields : List PyObj)
    (item v : PyJson) (n n2 : Nat)
    (h : fillChartItem env all_fields item n = .ok (v, n2)) :
    ∃ io eo : PyObj, ∃ dl ml : PyArr, ∃ fset nd nm : List PyJson,
      item = .obj io ∧
      io.find "encodings" = some (.obj eo) ∧
      eo.find "dimensions" = some (.arr dl) ∧
      eo.find "measures" = some (.arr ml) ∧
      fieldSet (dl.toList ++ ml.toList) = .ok fset ∧
      splitNewFields env fset all_fields n = .ok (nd, nm, n2) ∧
      v = .obj (io.upsert "encodings" (.obj ((eo.upsert "dimensions"
        (.arr (PyArr.ofList (dl.toList ++ nd)))).upsert "measures"
        (.arr (PyArr.ofList (ml.toList ++ nm)))))) := by
  simp only [fillChartItem, Except.instMonad, Except.bind] at h
  split at h
  · exact absurd h (by simp)
  rename_i enc henc
  split at h
  · exact absurd h (by simp)
  rename_i dims hdims
  split at h
  · exact absurd h (by simp)
  rename_i meas hmeas
  split at h
  · exact absurd h (by simp)
  rename_i fields hfields
  split at h
  · exact absurd h (by simp)
  rename_i fset hfset
  split at h
  · exact absurd h (by simp)
  rename_i r hr
  obtain ⟨nd, nm, k⟩ := r
  split at h
  · rename_i io eo dl ml
    simp only [Except.ok.injEq, Prod.mk.injEq] at h
    obtain ⟨hv, hn⟩ := h
    subst hn
    simp only [pyConcatIter, Except.ok.injEq] at hfields
    subst hfields
    have hencf : io.find "encodings" = some (.obj eo) := by
      obtain ⟨o, ho, hf⟩ := pySubscript_ok_inv _ _ _ henc
      obtain rfl : io = o := by simpa using ho
      exact hf
    have hdlf : eo.find "dimensions" = some (.arr dl) := by
      obtain ⟨o, ho, hf⟩ := pySubscript_ok_inv _ _ _ hdims
      obtain rfl : eo = o := by simpa using ho
      exact hf
    have hmlf : eo.find "measures" = some (.arr ml) := by
      obtain ⟨o, ho, hf⟩ := pySubscript_ok_inv _ _ _ hmeas
      obtain rfl : eo = o := by simpa using ho
      exact hf
    exact ⟨io, eo, dl, ml, fset, nd, nm, rfl, hencf, hdlf, hmlf, hfset, hr, hv.symm⟩
  · exact absurd h (by simp)

theorem fillChartItem_wf (env : SpecEnv) (all_fields : List PyObj)
    (item v : PyJson) (n n2 : Nat)
    (h : fillChartItem env all_fields item n = .ok (v, n2))
    (hitem : wfV item = true)
    (hwf : ∀ f ∈ all_fields, wfV (.obj f) = true) :
    wfV v = true := by
  obtain ⟨io, eo, dl, ml, fset, nd, nm, rfl, henc, hdl, hml, hfset, hsp, rfl⟩ :=
    fillChartItem_inv env all_fields _ v n n2 h
  have hiowfO : wfO io = true := by
    simp only [wfV, Bool.and_eq_true] at hitem
    exact hitem.2
  have heo : wfV (.obj eo) = true := wfO_find io "encodings" _ hiowfO henc
  have heowfO : wfO eo = true := by
    simp only [wfV, Bool.and_eq_true] at heo
    exact heo.2
  have hdlA : wfA dl = true := by
    have := wfO_find eo "dimensions" _ heowfO hdl
    simpa [wfV] using this
  have hmlA : wfA ml = true := by
    have := wfO_find eo "measures" _ heowfO hml
    simpa [wfV] using this
  obtain ⟨_, hnewwf⟩ :=
    splitNewFields_props env fset all_fields n nd nm n2 hsp hwf
  apply wfObj_upsert
  · apply wfObj_upsert
    · show wfA (PyArr.ofList (ml.toList ++ nm)) = true
      exact wfArr_append ml nm hmlA (fun x hx => (hnewwf x (Or.inr hx)).1)
    · apply wfObj_upsert
      · show wfA (PyArr.ofList (dl.toList ++ nd)) = true
        exact wfArr_append dl nd hdlA (fun x hx => (hnewwf x (Or.inl hx)).1)
      · exact heo
  · exact hitem

theorem fillChartItem_idem (env : SpecEnv) (all_fields : List PyObj)
    (item v : PyJson) (n n2 m : Nat)
    (h : fillChartItem env all_fields item n = .ok (v, n2))
    (hwf : ∀ f ∈ all_fields, wfV (.obj f) = true) :
    fillChartItem env all_fields v m = .ok (v, m) := by
  obtain ⟨io, eo, dl, ml, fset, nd, nm, rfl, henc, hdl, hml, hfset, hsp, rfl⟩ :=
    fillChartItem_inv env all_fields _ v n n2 h
  set D := PyArr.ofList (dl.toList ++ nd) with hD
  set M := PyArr.ofList (ml.toList ++ nm) with hM
  set eo2 := (eo.upsert "dimensions" (.arr D)).upsert "measures" (.arr M) with heo2
  set io2 := io.upsert "encodings" (.obj eo2) with hio2
  have h2 : eo2.find "dimensions" = some (.arr D) := by
    rw [heo2, pfind_upsert_other _ _ _ _ (by decide)]
    exact pfind_upsert_same _ _ _
  have h3 : eo2.find "measures" = some (.arr M) := by
    rw [heo2]
    exact pfind_upsert_same _ _ _
  have h1f : io2.find "encodings" = some (.obj eo2) := by
    rw [hio2]
    exact pfind_upsert_same _ _ _
  have hsub1 : pySubscript (.obj io2) "encodings" = .ok (.obj eo2) := by
    simp [pySubscript, h1f]
  have hsub2 : pySubscript (.obj eo2) "dimensions" = .ok (.arr D) := by
    simp [pySubscript, h2]
  have hsub3 : pySubscript (.obj eo2) "measures" = .ok (.arr M) := by
    simp [pySubscript, h3]
  have hold := fieldSet_ok_elems _ _ hfset
  obtain ⟨hcov, hnew⟩ := splitNewFields_props env fset all_fields n nd nm n2 hsp hwf
  have hshape2 : ∀ x ∈ D.toList ++ M.toList, ∃ o : PyObj, x = .obj o ∧
      ∃ fid, o.find "fid" = some fid ∧ pyHashable fid = true := by
    intro x hx
    rw [hD, hM, arrToList_ofList, arrToList_ofList] at hx
    rcases List.mem_append.mp hx with hx1 | hx1
    · rcases List.mem_append.mp hx1 with hx2 | hx2
      · obtain ⟨o, rfl, fid, hf, hh2, _⟩ := hold x (List.mem_append_left _ hx2)
        exact ⟨o, rfl, fid, hf, hh2⟩
      · exact (hnew x (Or.inl hx2)).2
    · rcases List.mem_append.mp hx1 with hx2 | hx2
      · obtain ⟨o, rfl, fid, hf, hh2, _⟩ := hold x (List.mem_append_right _ hx2)
        exact ⟨o, rfl, fid, hf, hh2⟩
      · exact (hnew x (Or.inr hx2)).2
  obtain ⟨s2, hs2, hchar2⟩ := fieldSet_eq (D.toList ++ M.toList) hshape2
  have hshape1 : ∀ x ∈ dl.toList ++ ml.toList, ∃ o : PyObj, x = .obj o ∧
      ∃ fid, o.find "fid" = some fid ∧ pyHashable fid = true := by
    intro x hx
    obtain ⟨o, rfl, fid, hf, hh2, _⟩ := hold x hx
    exact ⟨o, rfl, fid, hf, hh2⟩
  obtain ⟨s1, hs1, hchar1⟩ := fieldSet_eq (dl.toList ++ ml.toList) hshape1
  have hseq : s1 = fset := by
    rw [hs1] at hfset
    simpa using hfset
  have hcov2 : ∀ f ∈ all_fields, ∃ fid, f.find "fid" = some fid ∧
      pyHashable fid = true ∧ fid ∈ s2 := by
    intro f hf
    obtain ⟨fid, hfind, hh2, hor⟩ := hcov f hf
    refine ⟨fid, hfind, hh2, ?_⟩
    rcases hor with hin | ⟨o, hino, hfo⟩
    · rw [← hseq] at hin
      obtain ⟨o, hino, hfo⟩ := (hchar1 fid).mp hin
      apply (hchar2 fid).mpr
      refine ⟨o, ?_, hfo⟩
      rw [hD, hM, arrToList_ofList, arrToList_ofList]
      rcases List.mem_append.mp hino with h' | h'
      · exact List.mem_append_left _ (List.mem_append_left _ h')
      · exact List.mem_append_right _ (List.mem_append_left _ h')
    · apply (hchar2 fid).mpr
      refine ⟨o, ?_, hfo⟩
      rw [hD, hM, arrToList_ofList, arrToList_ofList]
      rcases hino with h' | h'
      · exact List.mem_append_left _ (List.mem_append_right _ h')
      · exact List.mem_append_right _ (List.mem_append_right _ h')
  have hskip : splitNewFields env s2 all_fields m = .ok ([], [], m) :=
    splitNewFields_skip_all env s2 all_fields m hcov2
  have hrun : fillChartItem env all_fields (.obj io2) m =
      .ok (.obj (io2.upsert "encodings" (.obj ((eo2.upsert "dimensions"
        (.arr (PyArr.ofList (D.toList ++ [])))).upsert "measures"
        (.arr (PyArr.ofList (M.toList ++ [])))))), m) := by
    simp [fillChartItem, hsub1, hsub2, hsub3, pyConcatIter, hs2, hskip,
      Except.instMonad, Except.bind]
  rw [hrun, List.append_nil, List.append_nil, arrOfList_toList, arrOfList_toList,
    pupsert_self _ _ _ h2, pupsert_self _ _ _ h3, pupsert_self _ _ _ h1f]

theorem fillItems_wf (env : SpecEnv) (all_fields : List PyObj) :
    ∀ (items : List PyJson) (n : Nat) (out : List PyJson) (n1 : Nat),
    fillItems env all_fields items n = .ok (out, n1) →
    (∀ x ∈ items, wfV x = true) →
    (∀ f ∈ all_fields, wfV (.obj f) = true) →
    ∀ x ∈ out, wfV x = true
  | [], n, out, n1, h, _, _ => by
    replace h : Except.ok (([] : List PyJson), n) = .ok (out, n1) := h
    simp only [Except.ok.injEq, Prod.mk.injEq] at h
    obtain ⟨h1, h2⟩ := h
    subst h1
    simp
  | it :: items, n, out, n1, h, hwfi, hwf => by
    replace h : Except.bind (fillChartItem env all_fields it n) (fun r =>
        Except.bind (fillItems env all_fields items r.2) (fun p =>
          Except.ok (r.1 :: p.1, p.2))) = .ok (out, n1) := h
    cases hr : fillChartItem env all_fields it n with
    | error e => rw [hr] at h; exact absurd h (by simp [Except.bind])
    | ok r =>
      obtain ⟨v, k⟩ := r
      rw [hr] at h
      simp only [Except.bind] at h
      cases hp : fillItems env all_fields items k with
      | error e => rw [hp] at h; exact absurd h (by simp)
      | ok p =>
        obtain ⟨outRest, k2⟩ := p
        rw [hp] at h
        simp only [Except.ok.injEq, Prod.mk.injEq] at h
        obtain ⟨h1, h2⟩ := h
        subst h1
        intro x hx
        rcases List.mem_cons.mp hx with rfl | hx2
        · exact fillChartItem_wf env all_fields it x n k hr (hwfi it (by simp)) hwf
        · exact fillItems_wf env all_fields items k outRest k2 hp
            (fun y hy => hwfi y (List.mem_cons_of_mem it hy)) hwf x hx2

theorem fillItems_idem (env : SpecEnv) (all_fields : List PyObj) :
    ∀ (items : List PyJson) (n : Nat) (out : List PyJson) (n1 m : Nat),
    fillItems env all_fields items n = .ok (out, n1) →
    (∀ f ∈ all_fields, wfV (.obj f) = true) →
    fillItems env all_fields out m = .ok (out, m)
  | [], n, out, n1, m, h, _ => by
    replace h : Except.ok (([] : List PyJson), n) = .ok (out, n1) := h
    simp only [Except.ok.injEq, Prod.mk.injEq] at h
    obtain ⟨h1, h2⟩ := h
    subst h1
    rfl
  | it :: items, n, out, n1, m, h, hwf => by
    replace h : Except.bind (fillChartItem env all_fields it n) (fun r =>
        Except.bind (fillItems env all_fields items r.2) (fun p =>
          Except.ok (r.1 :: p.1, p.2))) = .ok (out, n1) := h
    cases hr : fillChartItem env all_fields it n with
    | error e => rw [hr] at h; exact absurd h (by simp [Except.bind])
    | ok r =>
      obtain ⟨v, k⟩ := r
      rw [hr] at h
      simp only [Except.bind] at h
      cases hp : fillItems env all_fields items k with
      | error e => rw [hp] at h; exact absurd h (by simp)
      | ok p =>
        obtain ⟨outRest, k2⟩ := p
        rw [hp] at h
        simp only [Except.ok.injEq, Prod.mk.injEq] at h
        obtain ⟨h1, h2⟩ := h
        subst h1
        have hci : fillChartItem env all_fields v m = .ok (v, m) :=
          fillChartItem_idem env all_fields it v n k m hr hwf
        have hrest : fillItems env all_fields outRest m = .ok (outRest, m) :=
          fillItems_idem env all_fields items k outRest k2 m hp hwf
        simp [fillItems, hci, hrest, Except.instMonad, Except.bind]

/-- C6: field reconciliation is idempotent — running `fill_new_fields` on
its own output (with the same dataset field list, whose field dicts are
well-formed) returns that output unchanged and consumes no further random
ids. -/
theorem C6_idempotent (env : SpecEnv) (config : String) (all_fields : List PyObj)
    (n : Nat) (out1 : String) (n1 : Nat)
    (h : fill_new_fields env config all_fields n = .ok (out1, n1))
    (hwf : ∀ f ∈ all_fields, wfV (.obj f) = true) :
    fill_new_fields env out1 all_fields n1 = .ok (out1, n1) := by
  simp only [fill_new_fields] at h
  cases hp : parseJson config with
  | none => rw [hp] at h; exact absurd h (by simp)
  | some cfg =>
    rw [hp] at h
    cases cfg with
    | null =>
      replace h : Except.error PyError.typeError = .ok (out1, n1) := h
      exact absurd h (by simp)
    | bool b =>
      replace h : Except.error PyError.typeError = .ok (out1, n1) := h
      exact absurd h (by simp)
    | num l =>
      replace h : Except.error PyError.typeError = .ok (out1, n1) := h
      exact absurd h (by simp)
    | str s =>
      by_cases hse : s = ""
      · subst hse
        replace h : (if ("" : String) = "" then Except.ok (pyDumps (.str ""), n)
            else Except.error PyError.typeError) = .ok (out1, n1) := h
        rw [if_pos rfl] at h
        simp only [Except.ok.injEq, Prod.mk.injEq] at h
        obtain ⟨h1, h2⟩ := h
        subst h1
        subst h2
        simp [fill_new_fields, show parseJson (pyDumps (PyJson.str "")) =
          some (PyJson.str "") from by decide]
      · replace h : (if s = "" then Except.ok (pyDumps (PyJson.str ""), n)
            else (Except.error PyError.typeError :
              Except PyError (String × Nat))) = .ok (out1, n1) := h
        rw [if_neg hse] at h
        exact absurd h (by simp)
    | obj o =>
      cases o with
      | nil =>
        replace h : Except.ok (pyDumps (.obj .nil), n) = .ok (out1, n1) := h
        simp only [Except.ok.injEq, Prod.mk.injEq] at h
        obtain ⟨h1, h2⟩ := h
        subst h1
        subst h2
        simp [fill_new_fields, show parseJson (pyDumps (PyJson.obj PyObj.nil)) =
          some (PyJson.obj PyObj.nil) from by decide]
      | cons k v tl =>
        replace h : Except.error PyError.typeError = .ok (out1, n1) := h
        exact absurd h (by simp)
    | arr items =>
      replace h : Except.bind (fillItems env all_fields items.toList n) (fun p =>
          Except.ok (pyDumps (.arr (PyArr.ofList p.1)), p.2)) = .ok (out1, n1) := h
      cases hfi : fillItems env all_fields items.toList n with
      | error e => rw [hfi] at h; exact absurd h (by simp [Except.bind])
      | ok p =>
        obtain ⟨outItems, k⟩ := p
        rw [hfi] at h
        simp only [Except.bind, Except.ok.injEq, Prod.mk.injEq] at h
        obtain ⟨h1, h2⟩ := h
        subst h2
        subst h1
        have hwfitems : ∀ x ∈ items.toList, wfV x = true := by
          have hw := parseJson_wf config (.arr items) hp
          intro x hx
          exact wfA_toList items (by simpa [wfV] using hw) x hx
        have hwfout : ∀ x ∈ outItems, wfV x = true :=
          fillItems_wf env all_fields items.toList n outItems k hfi hwfitems hwf
        have hwfarr : wfV (.arr (PyArr.ofList outItems)) = true := by
          simpa [wfV] using wfA_ofList outItems hwfout
        have hparse : parseJson (pyDumps (.arr (PyArr.ofList outItems))) =
            some (.arr (PyArr.ofList outItems)) := parseJson_dumps _ hwfarr
        have hidem : fillItems env all_fields outItems k = .ok (outItems, k) :=
          fillItems_idem env all_fields items.toList n outItems k k hfi hwf
        simp [fill_new_fields, hparse, arrToList_ofList, hidem,
          Except.instMonad, Except.bind]

def c6cfg : String :=
  "[\x7b\"encodings\": \x7b\"dimensions\": [], \"measures\": []\x7d\x7d]"

def c6out : String :=
  "[\x7b\"encodings\": \x7b\"dimensions\": [], \"measures\": [\x7b\"fid\": \"cc\", \"name\": \"dd\", \"analyticType\": \"measure\", \"basename\": \"dd\", \"dragId\": \"GW_\"\x7d]\x7d\x7d]"

set_option maxRecDepth 16384 in
theorem C6_witness :
    fill_new_fields plainEnv c6out [c5field] 1 = .ok (c6out, 1) :=
  C6_idempotent plainEnv c6cfg [c5field] 0 c6out 1 (by decide) (by decide)

example : parseSVer "0.1.0\n" = some ⟨0, 1, 0, none⟩ := by decide
example : parseSVer "0.1.0\n\n" = none := by decide
